import Mathlib

set_option maxHeartbeats 2000000
set_option maxRecDepth 4000

namespace Crawler

/-!
Shallow embedding of the concurrent site-crawling and contact-extraction
engine of this repository (the HTTP scraping worker, its browser-rendering
sibling, and the shared response normalizer).  Strings are processed as
lists of characters.  The fragment of WHATWG-URL behaviour that the code
relies on (http/https parsing, origin comparison, search-parameter
handling, serialization) is modelled explicitly; the model only accepts
http/https URLs, lowercases the host, normalizes the port and defaults the
path to a single slash, exactly the normalizations the scraper observes
through the JS URL class.
-/

/-- ASCII lower-casing, the behaviour of JS `toLowerCase` on the ASCII range. -/
def lowerChar (c : Char) : Char :=
  if 'A' ≤ c ∧ c ≤ 'Z' then Char.ofNat (c.toNat + 32) else c

def lowerL (l : List Char) : List Char := l.map lowerChar

/-- The ASCII part of the JS whitespace class used by `trim` and the regex `\s`. -/
def isSpaceJS (c : Char) : Bool :=
  c = ' ' ∨ c = '\t' ∨ c = '\n' ∨ c = '\r' ∨ c = '\x0B' ∨ c = '\x0C'

/-- JS `String.prototype.trim` (ASCII whitespace fragment). -/
def trimL (l : List Char) : List Char :=
  ((l.dropWhile isSpaceJS).reverse.dropWhile isSpaceJS).reverse

/-- Split a character list at the first occurrence of `c`: the prefix before
it, and `some` suffix after it (`none` if `c` does not occur). -/
def splitAtFirst (c : Char) : List Char → List Char × Option (List Char)
  | [] => ([], none)
  | x :: xs =>
    if x = c then ([], some xs)
    else
      let r := splitAtFirst c xs
      (x :: r.1, r.2)

/-! ### The URL model -/

structure UrlObj where
  https : Bool
  host : List Char
  port : Option Nat
  path : List Char
  query : Option (List Char)
  frag : Option (List Char)
deriving DecidableEq

/-- The characters of the scheme part, `https://` / `http://`. -/
def SCHEME_HTTPS_PRE : List Char := ['h', 't', 't', 'p', 's', ':', '/', '/']

def SCHEME_HTTP_PRE : List Char := ['h', 't', 't', 'p', ':', '/', '/']

/-- Strip a (lower-case) literal from the head of `l`, case-insensitively. -/
def stripPreCI : List Char → List Char → Option (List Char)
  | [], l => some l
  | _ :: _, [] => none
  | a :: ps, b :: ls => if lowerChar b = a then stripPreCI ps ls else none

def isDigitC (c : Char) : Bool := '0' ≤ c && c ≤ '9'

def natOfDigits (l : List Char) : Nat :=
  l.foldl (fun a c => a * 10 + (c.toNat - 48)) 0

def digitChar10 (d : Nat) : Char := Char.ofNat (48 + d)

def digitsOfNat (n : Nat) : List Char :=
  if n = 0 then ['0'] else (Nat.digits 10 n).reverse.map digitChar10

def isDefaultPort (https : Bool) (n : Nat) : Bool :=
  (https && n == 443) || (!https && n == 80)

/-- Authority/path part of URL parsing, after scheme and query/fragment have
been split off.  Mirrors the JS URL class: lowercased host, numeric port with
default-port elision, path defaulting to `/`. -/
def parseHostPort (https : Bool) (rest : List Char) (query : Option (List Char)) :
    Option UrlObj :=
  if (splitAtFirst ':' (splitAtFirst '/' rest).1).1 = [] then none
  else
    match (splitAtFirst ':' (splitAtFirst '/' rest).1).2 with
    | none =>
      some ⟨https, lowerL (splitAtFirst ':' (splitAtFirst '/' rest).1).1, none,
        '/' :: (splitAtFirst '/' rest).2.getD [], query, none⟩
    | some ds =>
      if ds = [] then
        some ⟨https, lowerL (splitAtFirst ':' (splitAtFirst '/' rest).1).1, none,
          '/' :: (splitAtFirst '/' rest).2.getD [], query, none⟩
      else if ds.all isDigitC then
        if 65535 < natOfDigits ds then none
        else if isDefaultPort https (natOfDigits ds) then
          some ⟨https, lowerL (splitAtFirst ':' (splitAtFirst '/' rest).1).1, none,
            '/' :: (splitAtFirst '/' rest).2.getD [], query, none⟩
        else
          some ⟨https, lowerL (splitAtFirst ':' (splitAtFirst '/' rest).1).1,
            some (natOfDigits ds), '/' :: (splitAtFirst '/' rest).2.getD [], query, none⟩
      else none

/-- Parse a fragment-free URL string (http/https only). -/
def parseNoFrag (b : List Char) : Option UrlObj :=
  match stripPreCI SCHEME_HTTPS_PRE (splitAtFirst '?' b).1 with
  | some rest => parseHostPort true rest (splitAtFirst '?' b).2
  | none =>
    match stripPreCI SCHEME_HTTP_PRE (splitAtFirst '?' b).1 with
    | some rest => parseHostPort false rest (splitAtFirst '?' b).2
    | none => none

/-- `new URL(s)` of the model: split off the fragment, parse the rest. -/
def parseUrlL (s : List Char) : Option UrlObj :=
  (parseNoFrag (splitAtFirst '#' s).1).map
    (fun u => { u with frag := (splitAtFirst '#' s).2 })

def portChars : Option Nat → List Char
  | some n => ':' :: digitsOfNat n
  | none => []

def queryChars : Option (List Char) → List Char
  | some q => '?' :: q
  | none => []

def fragChars : Option (List Char) → List Char
  | some f => '#' :: f
  | none => []

/-- `url.href` of the model. -/
def serializeUrlL (u : UrlObj) : List Char :=
  (if u.https then SCHEME_HTTPS_PRE else SCHEME_HTTP_PRE) ++ u.host ++
    portChars u.port ++ u.path ++ queryChars u.query ++ fragChars u.frag

/-- `cleanUrl` from the scraper: parse, erase the hash, re-serialize; on a
parse failure fall back to the prefix before the first `#`. -/
def cleanUrlL (s : List Char) : List Char :=
  match parseUrlL s with
  | some u => serializeUrlL { u with frag := none }
  | none => (splitAtFirst '#' s).1

def cleanUrl (s : String) : String := ⟨cleanUrlL s.data⟩

/-- `url.origin` equality: scheme, host and (normalized) port agree. -/
def originEq (a b : UrlObj) : Bool :=
  a.https == b.https && a.host == b.host && a.port == b.port

/-! ### Parser invariant and round trip -/

/-- The invariant satisfied by every object produced by `parseUrlL`; it is
exactly what is needed for the serialization to parse back to the same
object. -/
structure UrlInv (u : UrlObj) : Prop where
  hostNe : u.host ≠ []
  hostLower : lowerL u.host = u.host
  hostColon : ':' ∉ u.host
  hostSlash : '/' ∉ u.host
  hostQ : '?' ∉ u.host
  hostHash : '#' ∉ u.host
  pathHead : ∃ t, u.path = '/' :: t
  pathQ : '?' ∉ u.path
  pathHash : '#' ∉ u.path
  queryHash : ∀ q, u.query = some q → '#' ∉ q
  portRange : ∀ n, u.port = some n → n ≤ 65535 ∧ isDefaultPort u.https n = false

/-! ### URL resolution against a base (`new URL(candidate, base)`) -/

/-- Directory of a path: everything up to and including the last `/`. -/
def dirOfPath (p : List Char) : List Char :=
  (p.reverse.dropWhile (fun c => c != '/')).reverse

/-- Path of a relative candidate resolved against the base. -/
def relPath (base : UrlObj) (p : List Char) : List Char :=
  if p = [] then base.path
  else if p.take 1 = ['/'] then p
  else dirOfPath base.path ++ p

/-- Query of a relative candidate resolved against the base. -/
def relQuery (base : UrlObj) (cand : List Char) : Option (List Char) :=
  match (splitAtFirst '?' (splitAtFirst '#' cand).1).2 with
  | some q => some q
  | none => if (splitAtFirst '#' cand).1 = [] then base.query else none

/-- `new URL(candidate, base)`: absolute candidates parse on their own,
`//…` is scheme-relative, `/…` is root-relative, everything else resolves
against the directory of the base path (dot-segment normalization is not
modelled; the collector guards never depend on it). -/
def resolveUrl (cand : List Char) (base : UrlObj) : Option UrlObj :=
  match parseUrlL cand with
  | some u => some u
  | none =>
    if cand.take 2 = ['/', '/'] then
      parseUrlL ((if base.https then ['h', 't', 't', 'p', 's', ':']
        else ['h', 't', 't', 'p', ':']) ++ cand)
    else
      some { base with
        path := relPath base (splitAtFirst '?' (splitAtFirst '#' cand).1).1,
        query := relQuery base cand,
        frag := (splitAtFirst '#' cand).2 }

/-! ### Link collector (`createSameDomainLinkCollector`) -/

def MAX_LINKS_PER_PAGE : Nat := 50

/-- `addCandidateLink`: resolve against the base, reject parse failures,
cross-origin links, the base page itself and duplicates; cap the list. -/
def addCandidateLink (base : UrlObj) (links : List (List Char)) (cand : List Char) :
    List (List Char) :=
  if cand = [] ∨ MAX_LINKS_PER_PAGE ≤ links.length then links
  else
    match resolveUrl cand base with
    | none => links
    | some link =>
      if originEq link base then
        if cleanUrlL (serializeUrlL link) = cleanUrlL (serializeUrlL base) ∨
            cleanUrlL (serializeUrlL link) ∈ links then links
        else links ++ [cleanUrlL (serializeUrlL link)]
      else links

/-- The fixed well-known contact/about paths seeded by `addCommonPages`. -/
def COMMON_PAGE_PATHS : List (List Char) :=
  [("/about/").data, ("/contact/").data, ("/about-us/").data, ("/contact-us/").data,
   ("/privacy/").data, ("/terms").data]

def stripEdgeSlashes (l : List Char) : List Char :=
  ((l.dropWhile (fun c => c == '/')).reverse.dropWhile (fun c => c == '/')).reverse

/-- `generateCommonPageVariants`: the path without and with a trailing slash
(as a JS `Set`, i.e. deduplicated preserving insertion order). -/
def generateCommonPageVariants (p : List Char) : List (List Char) :=
  if trimL p = [] then []
  else
    (['/' :: stripEdgeSlashes (trimL p),
      '/' :: stripEdgeSlashes (trimL p) ++ ['/']]).dedup

/-- `addCommonPages` feeds every common-page variant to `addCandidateLink`
(the early cap checks in the source only short-circuit calls that would be
no-ops anyway). -/
def addCommonPages (base : UrlObj) (links : List (List Char)) : List (List Char) :=
  ((COMMON_PAGE_PATHS.map generateCommonPageVariants).flatten).foldl
    (addCandidateLink base) links

/-- One interaction with the collector. -/
inductive LinkOp where
  | addCandidate (cand : List Char)
  | addCommon

def runCollectorStep (base : UrlObj) (links : List (List Char)) : LinkOp → List (List Char)
  | .addCandidate c => addCandidateLink base links c
  | .addCommon => addCommonPages base links

/-- `createSameDomainLinkCollector` followed by any sequence of calls and a
final `getLinks()`. -/
def runCollector (base : UrlObj) (ops : List LinkOp) : List (List Char) :=
  ops.foldl (runCollectorStep base) []

/-- The invariant of the collector state. -/
def CollectorInv (base : UrlObj) (links : List (List Char)) : Prop :=
  links.length ≤ MAX_LINKS_PER_PAGE ∧ links.Nodup ∧
    ∀ e ∈ links, cleanUrlL e = e ∧ '#' ∉ e ∧
      (∃ v, parseUrlL e = some v ∧ originEq v base = true) ∧
      e ≠ cleanUrlL (serializeUrlL base)

/-! ### Facebook URL normalization (`normalizeFacebookCandidate`) -/

/-- Case-insensitive replace-all of a fixed (lower-case) pattern, scanning
left to right without rescanning replacements, as JS `replace(/…/gi)` does.
The fuel is the input length; every step consumes at least one character
because no caller passes an empty pattern. -/
def replaceAllCIAux (pat rep : List Char) : Nat → List Char → List Char
  | 0, l => l
  | fuel + 1, l =>
    match l with
    | [] => []
    | c :: rest =>
      match stripPreCI pat l with
      | some after => rep ++ replaceAllCIAux pat rep fuel after
      | none => c :: replaceAllCIAux pat rep fuel rest

def replaceAllCI (pat rep l : List Char) : List Char :=
  replaceAllCIAux pat rep l.length l

def isQuoteChar (c : Char) : Bool :=
  c == Char.ofNat 39 || c == Char.ofNat 34 || c == Char.ofNat 96

/-- `replace(/^['"`]+|['"`]+$/g, '')`. -/
def stripEdgeQuotes (l : List Char) : List Char :=
  ((l.dropWhile isQuoteChar).reverse.dropWhile isQuoteChar).reverse

/-- The escape-sequence replacement chain applied to every candidate. -/
def fbUnescape (l : List Char) : List Char :=
  stripEdgeQuotes
    (replaceAllCI (("&amp;").data) ['&']
      (replaceAllCI ['\\', '\\'] ['\\']
        (replaceAllCI ['\\', '/'] ['/']
          (replaceAllCI ('\\' :: ("x3a").data) [':']
            (replaceAllCI ('\\' :: ("x2f").data) ['/']
              (replaceAllCI ('\\' :: ("u003a").data) [':']
                (replaceAllCI ('\\' :: ("u002f").data) ['/']
                  (replaceAllCI ('\\' :: ("u0026").data) ['&'] l))))))))

def hexVal (c : Char) : Option Nat :=
  if '0' ≤ c && c ≤ '9' then some (c.toNat - 48)
  else if 'a' ≤ c && c ≤ 'f' then some (c.toNat - 87)
  else if 'A' ≤ c && c ≤ 'F' then some (c.toNat - 55)
  else none

/-- `decodeURIComponent` (ASCII fragment): a malformed or non-ASCII escape
sequence throws, modelled as `none`; the caller keeps the original string in
that case. -/
def decodeURIStrict : List Char → Option (List Char)
  | [] => some []
  | c :: rest =>
    if c = '%' then
      match rest with
      | a :: b :: rest2 =>
        match hexVal a, hexVal b with
        | some x, some y =>
          if 16 * x + y < 128 then
            (decodeURIStrict rest2).map (fun r => Char.ofNat (16 * x + y) :: r)
          else none
        | _, _ => none
      | _ => none
    else (decodeURIStrict rest).map (fun r => c :: r)

def containsSub (pat l : List Char) : Bool :=
  l.tails.any (fun t => pat.isPrefixOf t)

/-- The percent-decoding trigger: `/^https?%3A%2F%2F/i` or a (case-sensitive)
occurrence of `%2F` / `%3A`. -/
def pctCondition (l : List Char) : Bool :=
  (stripPreCI (("https%3a%2f%2f").data) l).isSome ||
    (stripPreCI (("http%3a%2f%2f").data) l).isSome ||
    containsSub (("%2F").data) l || containsSub (("%3A").data) l

def fbMaybeDecode (l : List Char) : List Char :=
  if pctCondition l then
    match decodeURIStrict l with
    | some d => d
    | none => l
  else l

/-- `/^https?:\/\//i`. -/
def startsHttpScheme (l : List Char) : Bool :=
  (stripPreCI (("http://").data) l).isSome || (stripPreCI (("https://").data) l).isSome

/-- `/^(?:www\.)?(facebook\.com|fb\.com)/i`. -/
def startsFbBare (l : List Char) : Bool :=
  (stripPreCI (("www.facebook.com").data) l).isSome ||
    (stripPreCI (("www.fb.com").data) l).isSome ||
    (stripPreCI (("facebook.com").data) l).isSome ||
    (stripPreCI (("fb.com").data) l).isSome

/-- `replace(/^https?:\\\/\\\//i, '')`. -/
def stripEscScheme (l : List Char) : List Char :=
  match stripPreCI ((("https:").data) ++ ['\\', '/', '\\', '/']) l with
  | some r => r
  | none =>
    match stripPreCI ((("http:").data) ++ ['\\', '/', '\\', '/']) l with
    | some r => r
    | none => l

def fbCoerceScheme (l : List Char) : List Char :=
  if startsHttpScheme l then l
  else if l.take 2 = ['/', '/'] then ("https:").data ++ l
  else if startsFbBare l then ("https://").data ++ stripEscScheme l
  else l

/-- `replace(/\/+$/, '')`. -/
def rstripSlashes (l : List Char) : List Char :=
  (l.reverse.dropWhile (fun c => c == '/')).reverse

/-! `URLSearchParams` model: parse the raw query into decoded key/value
pairs, re-serialize with form encoding. -/

def splitOnChar (c : Char) : List Char → List (List Char)
  | [] => [[]]
  | x :: xs =>
    if x = c then [] :: splitOnChar c xs
    else
      match splitOnChar c xs with
      | [] => [[x]]
      | h :: t => (x :: h) :: t

/-- Lenient form decoding: `+` is a space, a malformed `%` stays literal. -/
def formDecode : List Char → List Char
  | [] => []
  | '+' :: rest => ' ' :: formDecode rest
  | '%' :: a :: b :: rest2 =>
    match hexVal a, hexVal b with
    | some x, some y => Char.ofNat (16 * x + y) :: formDecode rest2
    | _, _ => '%' :: formDecode (a :: b :: rest2)
  | '%' :: rest => '%' :: formDecode rest
  | c :: rest => c :: formDecode rest

def formPairs : Option (List Char) → List (List Char × List Char)
  | none => []
  | some qs =>
    (splitOnChar '&' qs).filterMap (fun seg =>
      if seg = [] then none
      else some (formDecode (splitAtFirst '=' seg).1,
        formDecode ((splitAtFirst '=' seg).2.getD [])))

/-- `searchParams.get(key)`: the (decoded) value of the first matching pair. -/
def formGet (q : Option (List Char)) (key : List Char) : Option (List Char) :=
  ((formPairs q).find? (fun kv => kv.1 == key)).map (fun kv => kv.2)

def hexDigitU (n : Nat) : Char :=
  if n < 10 then Char.ofNat (48 + n) else Char.ofNat (55 + n)

def pctByte (n : Nat) : List Char := ['%', hexDigitU (n / 16), hexDigitU (n % 16)]

def isFormUnreserved (c : Char) : Bool :=
  ('0' ≤ c && c ≤ '9') || ('a' ≤ c && c ≤ 'z') || ('A' ≤ c && c ≤ 'Z') ||
    c == '*' || c == '-' || c == '.' || c == '_'

/-- `application/x-www-form-urlencoded` encoding of one character
(UTF-8 percent escapes for the non-ASCII range). -/
def encodeFormChar (c : Char) : List Char :=
  if isFormUnreserved c then [c]
  else if c = ' ' then ['+']
  else if c.toNat < 128 then pctByte c.toNat
  else if c.toNat < 2048 then pctByte (192 + c.toNat / 64) ++ pctByte (128 + c.toNat % 64)
  else if c.toNat < 65536 then
    pctByte (224 + c.toNat / 4096) ++ pctByte (128 + (c.toNat / 64) % 64) ++
      pctByte (128 + c.toNat % 64)
  else
    pctByte (240 + c.toNat / 262144) ++ pctByte (128 + (c.toNat / 4096) % 64) ++
      pctByte (128 + (c.toNat / 64) % 64) ++ pctByte (128 + c.toNat % 64)

def formEncode (l : List Char) : List Char := (l.map encodeFormChar).flatten

def joinAmp : List (List Char) → List Char
  | [] => []
  | [x] => x
  | x :: xs => x ++ '&' :: joinAmp xs

/-- `searchParams.toString()`. -/
def serializeFormPairs (ps : List (List Char × List Char)) : List Char :=
  joinAmp (ps.map (fun kv => formEncode kv.1 ++ '=' :: formEncode kv.2))

def TRACKING_PARAMS : List (List Char) :=
  [("fbclid").data, ("utm_source").data, ("utm_medium").data, ("utm_campaign").data,
   ("utm_term").data, ("utm_content").data, ("mibextid").data, ("ref").data,
   ("refid").data]

def ALLOWED_SHORT_SEGMENTS : List (List Char) :=
  [['p'], ("sharer.php").data, ("share.php").data]

/-- `hostname === d || hostname.endsWith('.' + d)` for the two allowed
domains. -/
def fbHost (h : List Char) : Bool :=
  h == ("facebook.com").data || ((".facebook.com").data).isSuffixOf h ||
    h == ("fb.com").data || ((".fb.com").data).isSuffixOf h

/-- The pairs surviving tracking-parameter deletion. -/
def fbKeptPairs (q : Option (List Char)) : List (List Char × List Char) :=
  (formPairs q).filter (fun kv => !(TRACKING_PARAMS.contains kv.1))

/-- `urlObj.search = searchString ? '?' + searchString : ''`. -/
def fbStrippedQuery (q : Option (List Char)) : Option (List Char) :=
  if fbKeptPairs q = [] then none else some (serializeFormPairs (fbKeptPairs q))

/-- `pathname.split('/').filter(Boolean)[0] || ''`. -/
def firstPathSegment (p : List Char) : List Char :=
  (((splitOnChar '/' p).filter (fun seg => seg != [])).headD [])

/-- Tracking-parameter deletion, hash removal, short-first-segment rejection
and final `toString()`. -/
def normFbFinish (u : UrlObj) : Option (List Char) :=
  if 0 < (firstPathSegment u.path).length ∧ (firstPathSegment u.path).length < 2 ∧
      ¬(ALLOWED_SHORT_SEGMENTS.contains (lowerL (firstPathSegment u.path))) then none
  else some (serializeUrlL { u with frag := none, query := fbStrippedQuery u.query })

def truthyOpt : Option (List Char) → Option (List Char)
  | some v => if v = [] then none else some v
  | none => none

/-- `searchParams.get('u') || searchParams.get('href')`, with JS truthiness. -/
def fbForwarded (q : Option (List Char)) : Option (List Char) :=
  match truthyOpt (formGet q (("u").data)) with
  | some v => some v
  | none => truthyOpt (formGet q (("href").data))

/-- `normalizeFacebookCandidate` with the recursion depth expressed as fuel:
the source guards `depth > 3` and recurses at `depth + 1`, so the fuel at
depth `d` is `4 - d`. -/
def normFbAux : Nat → List Char → Option (List Char)
  | 0, _ => none
  | fuel + 1, rawValue =>
    if rawValue = [] then none
    else if trimL rawValue = [] then none
    else
      match parseUrlL
          (rstripSlashes (fbCoerceScheme (fbMaybeDecode (fbUnescape (trimL rawValue))))) with
      | none => none
      | some u =>
        if fbHost u.host then
          if ((("facebook.com").data).isSuffixOf u.host) ∧ u.path = ("/l.php").data then
            match fbForwarded u.query with
            | some fwd => normFbAux fuel fwd
            | none => normFbFinish u
          else normFbFinish u
        else none

def normalizeFacebookCandidate (raw : String) (depth : Nat) : Option String :=
  (normFbAux (4 - depth) raw.data).map (fun l => (⟨l⟩ : String))

/-- `extractFacebookUrls`, parameterized by the regex-scanned candidate set:
the three pattern families plus the bare fallback produce candidate strings,
every candidate is normalized (at depth 0) and the results deduplicated. -/
def extractFacebookUrls (candidates : List String) : List String :=
  (candidates.filterMap (fun c => normalizeFacebookCandidate c 0)).dedup

/-! ### Junk-email filter (`isJunkEmail`) -/

def BLOCKED_DOMAINS : List (List Char) :=
  [("sentry.io").data, ("sentry.wixpress.com").data, ("sentry-next.wixpress.com").data,
   ("ingest.sentry.io").data, ("newrelic.com").data, ("rollbar.com").data,
   ("datadoghq.com").data, ("bugsnag.com").data,
   ("wordpress.com").data, ("wordpress.org").data, ("wpengine.com").data,
   ("wix.com").data, ("squarespace.com").data, ("shopify.com").data,
   ("shopifyemail.com").data, ("bigcommerce.com").data, ("weebly.com").data,
   ("webflow.io").data, ("ghost.org").data, ("godaddy.com").data,
   ("cloudflare.com").data, ("cloudfront.net").data, ("amazonaws.com").data,
   ("azure.com").data, ("digitalocean.com").data, ("linode.com").data,
   ("heroku.com").data, ("netlify.app").data, ("vercel.app").data,
   ("render.com").data, ("cloudwaysapps.com").data,
   ("facebook.com").data, ("instagram.com").data, ("linkedin.com").data,
   ("twitter.com").data, ("x.com").data, ("youtube.com").data, ("tiktok.com").data,
   ("pinterest.com").data,
   ("fonts.googleapis.com").data, ("use.typekit.net").data, ("latofonts.com").data,
   ("fontsquirrel.com").data, ("myfonts.com").data, ("antsoup.com").data,
   ("example.com").data, ("domain.com").data, ("email.com").data, ("mysite.com").data,
   ("sample.com").data, ("test.com").data, ("yoursite.com").data,
   ("companyname.com").data, ("business.com").data, ("website.com").data,
   ("businessname.com").data, ("company.com").data, ("info.com").data,
   ("domain.co").data, ("domain.net").data]

def BLOCKED_LOCAL_PARTS : List (List Char) :=
  [("noreply").data, ("no-reply").data, ("donotreply").data, ("do-not-reply").data,
   ("firstname").data, ("lastname").data, ("yourname").data, ("fullname").data,
   ("username").data, ("user.name").data, ("johnsmith").data, ("john.doe").data,
   ("alex.smith").data, ("user").data, ("filler").data, ("placeholder").data,
   ("your").data, ("name").data, ("email").data]

/-- JS line terminators, which the regex `.` does not match. -/
def isNlJS (c : Char) : Bool :=
  c.toNat == 10 || c.toNat == 13 || c.toNat == 8232 || c.toNat == 8233

/-- The pattern `/@.*@/`: an `@` followed, with no line terminator in
between, by another `@`.  The flag tracks an `@` already seen on the
current line. -/
def atDotAt : List Char → Bool → Bool
  | [], _ => false
  | c :: rest, seen =>
    if c = '@' then (seen || atDotAt rest true)
    else if isNlJS c then atDotAt rest false
    else atDotAt rest seen

def FILE_EXT_SUFFIXES : List (List Char) :=
  [(".css").data, (".js").data, (".json").data, (".xml").data, (".map").data,
   (".min.js").data, (".min.css").data, (".woff").data, (".woff2").data,
   (".ttf").data, (".eot").data, (".pdf").data]

def IMG_EXT_SUFFIXES : List (List Char) :=
  [(".png").data, (".jpg").data, (".jpeg").data, (".gif").data, (".svg").data,
   (".webp").data, (".ico").data]

def RETINA_EXTS : List (List Char) :=
  [("png").data, ("jpg").data, ("jpeg").data, ("gif").data, ("svg").data,
   ("webp").data]

/-- End of `/@\d+x\.(ext)$/` before the extension: `…@<digits>x`. -/
def endsAtDigitsX (l : List Char) : Bool :=
  match l.reverse with
  | 'x' :: rest =>
    (rest.takeWhile isDigitC != []) &&
      (match rest.drop (rest.takeWhile isDigitC).length with
       | '@' :: _ => true
       | _ => false)
  | _ => false

def retinaCheck (l ext : List Char) : Bool :=
  if ('.' :: ext).isSuffixOf l then endsAtDigitsX (l.take (l.length - (ext.length + 1)))
  else false

def ASSET_STARTS : List (List Char) :=
  [("sprite").data, ("icon").data, ("logo").data, ("banner").data, ("image").data,
   ("font").data]

def assetStart (l : List Char) : Bool := ASSET_STARTS.any (fun p => p.isPrefixOf l)

/-- `/%[0-9A-Fa-f]{2}/`. -/
def pctHexSub : List Char → Bool
  | '%' :: a :: b :: rest =>
    ((hexVal a).isSome && (hexVal b).isSome) || pctHexSub (a :: b :: rest)
  | _ :: rest => pctHexSub rest
  | [] => false

/-- `/@o\d+\.ingest\.sentry\.io/` anchored at one tail. -/
def sentryOrgAt (t : List Char) : Bool :=
  match t with
  | '@' :: 'o' :: rest =>
    (rest.takeWhile isDigitC != []) &&
      ((".ingest.sentry.io").data).isPrefixOf (rest.drop (rest.takeWhile isDigitC).length)
  | _ => false

def sentryOrgSub (l : List Char) : Bool := l.tails.any sentryOrgAt

/-- The `BLOCKED_PATTERNS` regex list evaluated on the lower-cased trimmed
email (the `/i` flags are moot on a lower-cased input). -/
def blockedPatternsTest (l : List Char) : Bool :=
  (match l with
   | c :: _ => c == '%' || isSpaceJS c || c == '?' || c == '&'
   | [] => false) ||
  (match l with | '@' :: _ => true | _ => false) ||
  atDotAt l false ||
  FILE_EXT_SUFFIXES.any (fun s => s.isSuffixOf l) ||
  IMG_EXT_SUFFIXES.any (fun s => s.isSuffixOf l) ||
  RETINA_EXTS.any (fun ext => retinaCheck l ext) ||
  assetStart l ||
  pctHexSub l ||
  l.contains '?' ||
  containsSub (("subject=").data) l ||
  containsSub (("body=").data) l ||
  l.contains '&' ||
  sentryOrgSub l ||
  (("wixpress.com").data).isSuffixOf l ||
  containsSub (("sentry").data) l ||
  containsSub (("shoplocal").data) l ||
  containsSub (("news.cfm").data) l

/-- Split at the last occurrence of `c`: `none` when `c` does not occur. -/
def splitAtLast (c : Char) (l : List Char) : Option (List Char × List Char) :=
  match splitAtFirst c l.reverse with
  | (_, none) => none
  | (revAfter, some revBefore) => some (revBefore.reverse, revAfter.reverse)

/-- `/^(sprite|…|font|@\d+x)/i` on the local part. -/
def assetLocalStart (lp : List Char) : Bool :=
  assetStart lp ||
    (match lp with
     | '@' :: rest =>
       (rest.takeWhile isDigitC != []) &&
         (match rest.drop (rest.takeWhile isDigitC).length with
          | 'x' :: _ => true
          | _ => false)
     | _ => false)

/-- The part of `isJunkEmail` after normalization. -/
def junkCheckNormalized (l : List Char) : Bool :=
  if blockedPatternsTest l then true
  else
    match splitAtLast '@' l with
    | none => true
    | some (localPart, domain) =>
      if localPart = [] ∨ domain = [] then true
      else if BLOCKED_LOCAL_PARTS.contains localPart then true
      else if BLOCKED_DOMAINS.contains domain then true
      else if BLOCKED_DOMAINS.any (fun b => ('.' :: b).isSuffixOf domain) then true
      else if localPart.length < 2 ∨ domain.length < 4 then true
      else if !(domain.contains '.') then true
      else if assetLocalStart localPart then true
      else false

/-- `isJunkEmail`: empty input is junk; otherwise run the checks on the
lower-cased trimmed email. -/
def isJunkEmail (email : String) : Bool :=
  if email.data = [] then true
  else junkCheckNormalized (lowerL (trimL email.data))

/-- `email.toLowerCase().trim()` — JS applies `trim` after `toLowerCase`,
which commutes with it; the source lower-cases first. -/
def normalizeEmail (email : String) : List Char := lowerL (trimL email.data)

/-! ### HTTP fetch strategy: retry loop of `scrapeUrl` -/

def HTTP_MAX_RETRIES : Nat := 2

def RETRY_BACKOFF_BASE_MS : Nat := 500

/-- Outcome of one raw fetch attempt as the retry loop observes it. -/
inductive FetchAttempt where
  | ok (html : String)
  | httpStatus (code : Nat)
  | timeout
  | netError
deriving DecidableEq

def isOkAttempt : FetchAttempt → Bool
  | .ok _ => true
  | _ => false

def htmlOf : FetchAttempt → String
  | .ok h => h
  | _ => ("")

/-- `status === 403 || status === 429 || error.code === 'ECONNABORTED'`. -/
def isTransient : FetchAttempt → Bool
  | .httpStatus c => c == 403 || c == 429
  | .timeout => true
  | _ => false

def is404 : FetchAttempt → Bool
  | .httpStatus c => c == 404
  | _ => false

structure FetchLoopResult where
  attempts : Nat
  delays : List Nat
  htmlContent : String
  httpFailed : Bool
  needsBrowserRendering : Bool
deriving DecidableEq

/-- The retry loop `for (attempt = 0; attempt <= HTTP_MAX_RETRIES; …)`,
fuel `HTTP_MAX_RETRIES + 1 - attempt` (the fuel-0 default is unreachable
because the loop stops at `attempt === HTTP_MAX_RETRIES`).  `attempts`
counts fetch calls, `delays` the backoff waits between them. -/
def fetchLoopAux (f : Nat → FetchAttempt) : Nat → Nat → FetchLoopResult
  | _, 0 => ⟨0, [], (""), true, false⟩
  | attempt, fuel + 1 =>
    if isOkAttempt (f attempt) then ⟨1, [], htmlOf (f attempt), false, false⟩
    else if !(isTransient (f attempt)) || attempt == HTTP_MAX_RETRIES ||
        is404 (f attempt) then
      ⟨1, [], (""), true, isTransient (f attempt)⟩
    else
      ⟨(fetchLoopAux f (attempt + 1) fuel).attempts + 1,
        RETRY_BACKOFF_BASE_MS * 2 ^ attempt :: (fetchLoopAux f (attempt + 1) fuel).delays,
        (fetchLoopAux f (attempt + 1) fuel).htmlContent,
        (fetchLoopAux f (attempt + 1) fuel).httpFailed,
        (fetchLoopAux f (attempt + 1) fuel).needsBrowserRendering⟩

/-- The fetch part of `scrapeUrl`: the retry loop followed by the
empty-content check (`if (!htmlContent) { httpFailed = true }`). -/
def scrapeUrlFetch (f : Nat → FetchAttempt) : FetchLoopResult :=
  (fun r =>
      if r.htmlContent = ("") ∧ r.httpFailed = false then { r with httpFailed := true }
      else r)
    (fetchLoopAux f 0 (HTTP_MAX_RETRIES + 1))

/-! ### Crawl orchestration (`scrapeWebsite`, HTTP and browser variants) -/

def MAX_DEPTH : Nat := 2

def MAX_SUBPAGE_CRAWLS : Nat := 20

def MAX_STORED_VISITED_URLS : Nat := 200

/-- Per-URL result of the HTTP `scrapeUrl`. -/
structure ScrapeUrlResult where
  emails : List String
  facebookUrls : List String
  newUrls : List String
  httpFailed : Bool
  needsBrowserRendering : Bool
deriving DecidableEq

/-- A JS `Set` built by inserting the list elements in order (which
duplicate survives differs from insertion order; no claim observes it). -/
def dedupStr (l : List String) : List String := l.dedup

/-- The same-origin / not-yet-visited filter and the
`min(MAX_SUBPAGE_CRAWLS, MAX_LINKS_PER_PAGE)` slice applied to the primary
page's links (after the primary fetch the visited set is `{url}`). -/
def candidateSubpages (url : String) (base : UrlObj) (newUrls : List String) :
    List String :=
  (newUrls.filter (fun l =>
    match parseUrlL l.data with
    | some v => originEq v base && !(l == url)
    | none => false)).take (min MAX_SUBPAGE_CRAWLS MAX_LINKS_PER_PAGE)

/-- The fan-out decision of the HTTP `scrapeWebsite`: subpages are fetched
only when depth allows it and the primary page yielded no unique email;
`none` models the `new URL(url)` throw on an unparseable seed. -/
def dispatchedSubpages (url : String) (primary : ScrapeUrlResult) :
    Option (List String) :=
  match parseUrlL url.data with
  | none => none
  | some base =>
    if 1 < MAX_DEPTH ∧ (dedupStr primary.emails).length = 0 then
      some (candidateSubpages url base primary.newUrls)
    else some []

structure ScrapeResult where
  success : Bool
  emails : List String
  facebook_urls : List String
  crawled_urls : List String
  pages_crawled : Nat
  js_rendered : Option Bool
deriving DecidableEq

/-- `scrapeWebsite` of the HTTP worker with the network abstracted:
`subs` are the dispatched subpage URLs with their `scrapeUrl` results (the
early-exit skip inside the worker pool only shrinks the merged set and is
not modelled; it cannot affect the `success` flag, which the source sets to
the literal `true`). -/
def scrapeWebsiteHttp (url : String) (primary : ScrapeUrlResult)
    (subs : List (String × ScrapeUrlResult)) : ScrapeResult :=
  { success := true
    emails := dedupStr (primary.emails ++
      ((if 1 < MAX_DEPTH ∧ (dedupStr primary.emails).length = 0 then
          subs.map (fun p => p.2) else []).map (fun r => r.emails)).flatten)
    facebook_urls := dedupStr (primary.facebookUrls ++
      ((if 1 < MAX_DEPTH ∧ (dedupStr primary.emails).length = 0 then
          subs.map (fun p => p.2) else []).map (fun r => r.facebookUrls)).flatten)
    crawled_urls := (url :: (if 1 < MAX_DEPTH ∧ (dedupStr primary.emails).length = 0 then
      subs.map (fun p => p.1) else [])).take MAX_STORED_VISITED_URLS
    pages_crawled := (url :: (if 1 < MAX_DEPTH ∧ (dedupStr primary.emails).length = 0 then
      subs.map (fun p => p.1) else [])).length
    js_rendered :=
      if primary.needsBrowserRendering ||
          (if 1 < MAX_DEPTH ∧ (dedupStr primary.emails).length = 0 then
            subs.map (fun p => p.2) else []).any (fun r => r.needsBrowserRendering) then
        some false
      else none }

/-- Per-URL result of the browser-rendering `scrapeUrl`. -/
structure BScrapeUrlResult where
  emails : List String
  facebookUrls : List String
  newUrls : List String
  error : Option String
deriving DecidableEq

/-- JS truthiness of a nullable string. -/
def jsTruthyStr : Option String → Bool
  | some s => !(s == (""))
  | none => false

structure BScrapeResult where
  success : Bool
  emails : List String
  facebook_urls : List String
  crawled_urls : List String
  pages_crawled : Nat
  errors : List (String × String)
deriving DecidableEq

/-- `scrapeWebsite` of the browser-rendering worker: `success` is the
negation of `primaryFailed = primary.error && !emails && !newUrls`; subpage
fetches are abstracted as in `scrapeWebsiteHttp`. -/
def scrapeWebsiteBrowser (url : String) (primary : BScrapeUrlResult)
    (subs : List (String × BScrapeUrlResult)) : BScrapeResult :=
  { success := !(jsTruthyStr primary.error && primary.emails.isEmpty &&
      primary.newUrls.isEmpty)
    emails := dedupStr (primary.emails ++
      ((if 1 < MAX_DEPTH ∧ ¬(3 < (dedupStr primary.emails).length) ∧ primary.newUrls ≠ []
          then subs.map (fun p => p.2) else []).map (fun r => r.emails)).flatten)
    facebook_urls := dedupStr (primary.facebookUrls ++
      ((if 1 < MAX_DEPTH ∧ ¬(3 < (dedupStr primary.emails).length) ∧ primary.newUrls ≠ []
          then subs.map (fun p => p.2) else []).map (fun r => r.facebookUrls)).flatten)
    crawled_urls := (url :: (if 1 < MAX_DEPTH ∧ ¬(3 < (dedupStr primary.emails).length) ∧
      primary.newUrls ≠ [] then subs.map (fun p => p.1) else [])).take
        MAX_STORED_VISITED_URLS
    pages_crawled := (url :: (if 1 < MAX_DEPTH ∧ ¬(3 < (dedupStr primary.emails).length) ∧
      primary.newUrls ≠ [] then subs.map (fun p => p.1) else [])).length
    errors := (if jsTruthyStr primary.error then [(url, primary.error.getD (""))] else []) ++
      ((if 1 < MAX_DEPTH ∧ ¬(3 < (dedupStr primary.emails).length) ∧ primary.newUrls ≠ []
          then subs else []).filter (fun p => jsTruthyStr p.2.error)).map
        (fun p => (p.1, p.2.error.getD (""))) }

/-! ### Response normalizer (`worker-utils.ts`) and result classifier
(`processRow` of the batched worker) -/

/-- A JS error object carried in a payload (`none` models a falsy
`data.error`). -/
structure ErrObj where
  message : Option String
deriving DecidableEq

/-- The dynamic payload handed to `normalizeResponse`: each field may be
absent or of the wrong shape (`success` anything other than `some true`
models `data.success !== true`; `emails`/`facebook_urls` are `none` when not
arrays). -/
structure RawPayload where
  success : Option Bool
  error : Option ErrObj
  emails : Option (List String)
  facebook_urls : Option (List String)
  js_rendered : Option Bool
deriving DecidableEq

inductive NStatus where
  | autoCompleted
  | autoError
deriving DecidableEq

structure NormalizedResult where
  status : NStatus
  emails : List String
  facebook_urls : List String
  message : Option String
  needs_browser_rendering : Bool
deriving DecidableEq

/-- `data.error.message || 'Unknown error'`. -/
def errMessage (e : ErrObj) : String :=
  match e.message with
  | some m => if m = ("") then ("Unknown error") else m
  | none => ("Unknown error")

def normalizeResponseOne (data : RawPayload) : NormalizedResult :=
  if data.success = some true then
    { status := NStatus.autoCompleted
      emails := data.emails.getD []
      facebook_urls := data.facebook_urls.getD []
      message := none
      needs_browser_rendering := data.js_rendered == some false }
  else
    match data.error with
    | some e =>
      { status := NStatus.autoError
        emails := []
        facebook_urls := []
        message := some (errMessage e)
        needs_browser_rendering := data.js_rendered == some false }
    | none =>
      { status := NStatus.autoError
        emails := []
        facebook_urls := []
        message := some ("Invalid response format")
        needs_browser_rendering := false }

def normalizeResponse (items : List RawPayload) : List NormalizedResult :=
  items.map normalizeResponseOne

inductive FinalStatus where
  | autoCompleted
  | autoNeedGoogleSearch
  | autoNeedBrowserRendering
  | autoError
deriving DecidableEq

def statusToFinal : NStatus → FinalStatus
  | NStatus.autoCompleted => FinalStatus.autoCompleted
  | NStatus.autoError => FinalStatus.autoError

/-- The final-status decision of `processRow`. -/
def finalStatusOf (n : NormalizedResult) : FinalStatus :=
  if !n.emails.isEmpty || !n.facebook_urls.isEmpty then
    (if n.emails.isEmpty then FinalStatus.autoNeedGoogleSearch
     else FinalStatus.autoCompleted)
  else if n.needs_browser_rendering then FinalStatus.autoNeedBrowserRendering
  else if n.status = NStatus.autoCompleted ∧ n.emails.isEmpty then
    FinalStatus.autoNeedGoogleSearch
  else statusToFinal n.status

/-- The result classifier: normalization followed by the final-status
decision. -/
def classifyPayload (p : RawPayload) : FinalStatus :=
  finalStatusOf (normalizeResponseOne p)

/-- The two fallback statuses (the spec's single `needsFallback` class). -/
def isFallbackStatus : FinalStatus → Bool
  | FinalStatus.autoNeedGoogleSearch => true
  | FinalStatus.autoNeedBrowserRendering => true
  | _ => false

/-- The guarantee carried by every successfully normalized Facebook URL:
it serializes a URL object whose host passed the allow-list, whose fragment
is erased and whose query (if any) serializes pairs with no tracking key. -/
def FbOutProp (out : List Char) : Prop :=
  ∃ (u : UrlObj) (ps : List (List Char × List Char)),
    out = serializeUrlL u ∧ fbHost u.host = true ∧ u.frag = none ∧
      (∃ r, out = SCHEME_HTTPS_PRE ++ r ∨ out = SCHEME_HTTP_PRE ++ r) ∧
      (∀ kv ∈ ps, kv.1 ∉ TRACKING_PARAMS) ∧
      (u.query = none ∨ u.query = some (serializeFormPairs ps))

/-! ## Lemmas and theorems -/

theorem splitAtFirst_of_not_mem {c : Char} {l : List Char} (h : c ∉ l) :
    splitAtFirst c l = (l, none) := by
  induction l with
  | nil => rfl
  | cons x xs ih =>
    have hx : x ≠ c := fun he => h (he ▸ List.mem_cons_self x xs)
    have hxs : c ∉ xs := fun hm => h (List.mem_cons_of_mem x hm)
    simp [splitAtFirst, hx, ih hxs]

theorem splitAtFirst_append {c : Char} {l₁ l₂ : List Char} (h : c ∉ l₁) :
    splitAtFirst c (l₁ ++ c :: l₂) = (l₁, some l₂) := by
  induction l₁ with
  | nil => simp [splitAtFirst]
  | cons x xs ih =>
    have hx : x ≠ c := fun he => h (he ▸ List.mem_cons_self x xs)
    have hxs : c ∉ xs := fun hm => h (List.mem_cons_of_mem x hm)
    simp [splitAtFirst, hx, ih hxs]

theorem not_mem_splitAtFirst_fst (c : Char) (l : List Char) :
    c ∉ (splitAtFirst c l).1 := by
  induction l with
  | nil => simp [splitAtFirst]
  | cons x xs ih =>
    by_cases hx : x = c
    · simp [splitAtFirst, hx]
    · simp only [splitAtFirst, if_neg hx, List.mem_cons, not_or]
      exact ⟨fun he => hx he.symm, ih⟩

theorem mem_of_mem_splitAtFirst_fst {c x : Char} {l : List Char}
    (h : x ∈ (splitAtFirst c l).1) : x ∈ l := by
  induction l with
  | nil => simp [splitAtFirst] at h
  | cons y ys ih =>
    by_cases hy : y = c
    · simp [splitAtFirst, hy] at h
    · simp [splitAtFirst, hy] at h
      rcases h with h | h
      · exact h ▸ List.mem_cons_self y ys
      · exact List.mem_cons_of_mem y (ih h)

theorem mem_of_mem_splitAtFirst_snd {c x : Char} {l r : List Char}
    (h2 : (splitAtFirst c l).2 = some r) (h : x ∈ r) : x ∈ l := by
  induction l with
  | nil => simp [splitAtFirst] at h2
  | cons y ys ih =>
    by_cases hy : y = c
    · simp [splitAtFirst, hy] at h2
      exact List.mem_cons_of_mem y (h2 ▸ h)
    · simp [splitAtFirst, hy] at h2
      exact List.mem_cons_of_mem y (ih h2)

/-! ### Basic character lemmas -/

theorem charLe_toNat {a b : Char} : a ≤ b ↔ a.toNat ≤ b.toNat := Iff.rfl

theorem toNat_ofNat_valid (n : Nat) (h : n.isValidChar) : (Char.ofNat n).toNat = n := by
  simp only [Char.ofNat, h, dif_pos, Char.ofNatAux, Char.toNat]
  rfl

theorem char_eq_of_toNat_eq {a b : Char} (h : a.toNat = b.toNat) : a = b :=
  Char.eq_of_val_eq (UInt32.toNat.inj h)

theorem lowerChar_toNat (c : Char) :
    (lowerChar c).toNat =
      if 65 ≤ c.toNat ∧ c.toNat ≤ 90 then c.toNat + 32 else c.toNat := by
  unfold lowerChar
  by_cases h : 65 ≤ c.toNat ∧ c.toNat ≤ 90
  · rw [if_pos, if_pos h]
    · exact toNat_ofNat_valid _ (Or.inl (by omega))
    · exact ⟨charLe_toNat.mpr h.1, charLe_toNat.mpr h.2⟩
  · rw [if_neg, if_neg h]
    intro hc
    exact h ⟨charLe_toNat.mp hc.1, charLe_toNat.mp hc.2⟩

/-- For a character `d` that is not a letter, `lowerChar c = d ↔ c = d`. -/
theorem lowerChar_eq_special {c d : Char}
    (hd : d.toNat < 65 ∨ 122 < d.toNat ∨ (90 < d.toNat ∧ d.toNat < 97)) :
    lowerChar c = d ↔ c = d := by
  constructor
  · intro h
    have ht := congrArg Char.toNat h
    rw [lowerChar_toNat] at ht
    by_cases hu : 65 ≤ c.toNat ∧ c.toNat ≤ 90
    · rw [if_pos hu] at ht
      omega
    · rw [if_neg hu] at ht
      exact char_eq_of_toNat_eq ht
  · intro h
    subst h
    have ht := lowerChar_toNat c
    rw [if_neg (by omega)] at ht
    exact char_eq_of_toNat_eq ht

theorem lowerChar_idem (c : Char) : lowerChar (lowerChar c) = lowerChar c := by
  apply char_eq_of_toNat_eq
  have h1 := lowerChar_toNat c
  have h2 := lowerChar_toNat (lowerChar c)
  by_cases h : 65 ≤ c.toNat ∧ c.toNat ≤ 90
  · rw [if_pos h] at h1
    rw [h1, if_neg (by omega)] at h2
    rw [h2, h1]
  · rw [if_neg h] at h1
    rw [h1, if_neg h] at h2
    rw [h2, h1]

theorem lowerL_idem (l : List Char) : lowerL (lowerL l) = lowerL l := by
  unfold lowerL
  rw [List.map_map]
  exact List.map_congr_left (fun c _ => lowerChar_idem c)

theorem not_mem_lowerL_special {d : Char} {l : List Char}
    (hd : d.toNat < 65 ∨ 122 < d.toNat ∨ (90 < d.toNat ∧ d.toNat < 97))
    (h : d ∉ l) : d ∉ lowerL l := by
  intro hm
  rcases List.mem_map.mp hm with ⟨c, hc, he⟩
  exact h (((lowerChar_eq_special hd).mp he) ▸ hc)

/-! ### Digit lemmas -/

theorem isDigitC_iff {c : Char} : isDigitC c = true ↔ 48 ≤ c.toNat ∧ c.toNat ≤ 57 := by
  unfold isDigitC
  rw [Bool.and_eq_true, decide_eq_true_iff, decide_eq_true_iff]
  exact Iff.rfl

theorem mem_digitsOfNat_isDigit {n : Nat} {c : Char} (h : c ∈ digitsOfNat n) :
    isDigitC c = true := by
  unfold digitsOfNat at h
  by_cases h0 : n = 0
  · rw [if_pos h0] at h
    simp at h
    subst h
    decide
  · rw [if_neg h0] at h
    rcases List.mem_map.mp h with ⟨d, hd, he⟩
    have hd10 : d < 10 := Nat.digits_lt_base (by norm_num) (List.mem_reverse.mp hd)
    rw [isDigitC_iff, ← he]
    unfold digitChar10
    rw [toNat_ofNat_valid _ (Or.inl (by omega))]
    omega

theorem digitsOfNat_ne_nil (n : Nat) : digitsOfNat n ≠ [] := by
  unfold digitsOfNat
  by_cases h0 : n = 0
  · rw [if_pos h0]
    simp
  · rw [if_neg h0]
    simp [Nat.digits_ne_nil_iff_ne_zero.mpr h0]

theorem natOfDigits_rev_map {ds : List Nat} (h : ∀ d ∈ ds, d < 10) :
    natOfDigits ((ds.reverse).map digitChar10) = Nat.ofDigits 10 ds := by
  induction ds with
  | nil => rfl
  | cons d rest ih =>
    have hrest : ∀ x ∈ rest, x < 10 := fun x hx => h x (List.mem_cons_of_mem d hx)
    have hd : d < 10 := h d (List.mem_cons_self d rest)
    unfold natOfDigits at ih ⊢
    rw [List.reverse_cons, List.map_append, List.foldl_append, ih hrest]
    simp only [List.map_cons, List.map_nil, List.foldl_cons, List.foldl_nil]
    rw [Nat.ofDigits_cons]
    unfold digitChar10
    rw [toNat_ofNat_valid _ (Or.inl (by omega))]
    ring_nf
    omega

theorem natOfDigits_digitsOfNat (n : Nat) : natOfDigits (digitsOfNat n) = n := by
  unfold digitsOfNat
  by_cases h0 : n = 0
  · rw [if_pos h0]
    subst h0
    rfl
  · rw [if_neg h0]
    rw [natOfDigits_rev_map (fun d hd => Nat.digits_lt_base (by norm_num) hd)]
    exact Nat.ofDigits_digits 10 n

theorem mem_stripPreCI {p l r : List Char} (h : stripPreCI p l = some r) :
    ∀ x ∈ r, x ∈ l := by
  induction p generalizing l with
  | nil =>
    unfold stripPreCI at h
    cases h
    exact fun x hx => hx
  | cons a ps ih =>
    cases l with
    | nil => simp [stripPreCI] at h
    | cons b ls =>
      unfold stripPreCI at h
      by_cases hc : lowerChar b = a
      · rw [if_pos hc] at h
        exact fun x hx => List.mem_cons_of_mem b (ih h x hx)
      · rw [if_neg hc] at h
        cases h

theorem parseHostPort_inv {https : Bool} {rest : List Char} {query : Option (List Char)}
    {u : UrlObj} (hrQ : '?' ∉ rest) (hrH : '#' ∉ rest)
    (hqH : ∀ q, query = some q → '#' ∉ q)
    (h : parseHostPort https rest query = some u) :
    UrlInv u ∧ u.https = https ∧ u.query = query ∧ u.frag = none := by
  unfold parseHostPort at h
  set ps := splitAtFirst '/' rest with hps
  set hp := splitAtFirst ':' ps.1 with hhp
  have hp1_sub : ∀ x ∈ hp.1, x ∈ ps.1 := fun x hx => mem_of_mem_splitAtFirst_fst hx
  have ps1_sub : ∀ x ∈ ps.1, x ∈ rest := fun x hx => mem_of_mem_splitAtFirst_fst hx
  have hostNoColon : ':' ∉ hp.1 := not_mem_splitAtFirst_fst ':' ps.1
  have hostNoSlash : '/' ∉ hp.1 :=
    fun hx => (not_mem_splitAtFirst_fst '/' rest) (hp1_sub _ hx)
  have hostNoQ : '?' ∉ hp.1 := fun hx => hrQ (ps1_sub _ (hp1_sub _ hx))
  have hostNoHash : '#' ∉ hp.1 := fun hx => hrH (ps1_sub _ (hp1_sub _ hx))
  have pathQ : '?' ∉ ('/' : Char) :: ps.2.getD [] := by
    intro hx
    rcases List.mem_cons.mp hx with hx | hx
    · cases hx
    · cases hpp : ps.2 with
      | none => rw [hpp] at hx; cases hx
      | some t =>
        rw [hpp] at hx
        exact hrQ (mem_of_mem_splitAtFirst_snd hpp hx)
  have pathHash : '#' ∉ ('/' : Char) :: ps.2.getD [] := by
    intro hx
    rcases List.mem_cons.mp hx with hx | hx
    · cases hx
    · cases hpp : ps.2 with
      | none => rw [hpp] at hx; cases hx
      | some t =>
        rw [hpp] at hx
        exact hrH (mem_of_mem_splitAtFirst_snd hpp hx)
  by_cases hne : hp.1 = []
  · rw [if_pos hne] at h
    cases h
  rw [if_neg hne] at h
  have hostLowNe : lowerL hp.1 ≠ [] := by
    intro hl
    exact hne (List.map_eq_nil_iff.mp hl)
  have hostInvs : lowerL (lowerL hp.1) = lowerL hp.1 ∧ ':' ∉ lowerL hp.1 ∧
      '/' ∉ lowerL hp.1 ∧ '?' ∉ lowerL hp.1 ∧ '#' ∉ lowerL hp.1 :=
    ⟨lowerL_idem hp.1,
     not_mem_lowerL_special (by decide) hostNoColon,
     not_mem_lowerL_special (by decide) hostNoSlash,
     not_mem_lowerL_special (by decide) hostNoQ,
     not_mem_lowerL_special (by decide) hostNoHash⟩
  cases hport : hp.2 with
  | none =>
    rw [hport] at h
    cases h
    exact ⟨⟨hostLowNe, hostInvs.1, hostInvs.2.1, hostInvs.2.2.1, hostInvs.2.2.2.1,
      hostInvs.2.2.2.2, ⟨ps.2.getD [], rfl⟩, pathQ, pathHash, hqH,
      fun n hn => by cases hn⟩, rfl, rfl, rfl⟩
  | some ds =>
    rw [hport] at h
    dsimp only at h
    by_cases hds : ds = []
    · rw [if_pos hds] at h
      cases h
      exact ⟨⟨hostLowNe, hostInvs.1, hostInvs.2.1, hostInvs.2.2.1, hostInvs.2.2.2.1,
        hostInvs.2.2.2.2, ⟨ps.2.getD [], rfl⟩, pathQ, pathHash, hqH,
        fun n hn => by cases hn⟩, rfl, rfl, rfl⟩
    rw [if_neg hds] at h
    by_cases hall : ds.all isDigitC
    · rw [if_pos hall] at h
      by_cases hbig : 65535 < natOfDigits ds
      · rw [if_pos hbig] at h
        cases h
      rw [if_neg hbig] at h
      by_cases hdef : isDefaultPort https (natOfDigits ds)
      · rw [if_pos hdef] at h
        cases h
        exact ⟨⟨hostLowNe, hostInvs.1, hostInvs.2.1, hostInvs.2.2.1, hostInvs.2.2.2.1,
          hostInvs.2.2.2.2, ⟨ps.2.getD [], rfl⟩, pathQ, pathHash, hqH,
          fun n hn => by cases hn⟩, rfl, rfl, rfl⟩
      · rw [if_neg hdef] at h
        cases h
        refine ⟨⟨hostLowNe, hostInvs.1, hostInvs.2.1, hostInvs.2.2.1, hostInvs.2.2.2.1,
          hostInvs.2.2.2.2, ⟨ps.2.getD [], rfl⟩, pathQ, pathHash, hqH, ?_⟩, rfl, rfl, rfl⟩
        intro n hn
        cases hn
        exact ⟨by omega, by simpa using hdef⟩
    · rw [if_neg hall] at h
      cases h

theorem parseNoFrag_inv {b : List Char} {u : UrlObj} (hH : '#' ∉ b)
    (h : parseNoFrag b = some u) : UrlInv u ∧ u.frag = none := by
  unfold parseNoFrag at h
  set qs := splitAtFirst '?' b with hqs
  have hq1 : '?' ∉ qs.1 := not_mem_splitAtFirst_fst '?' b
  have hq1H : '#' ∉ qs.1 := fun hx => hH (mem_of_mem_splitAtFirst_fst hx)
  have hq2H : ∀ q, qs.2 = some q → '#' ∉ q := by
    intro q hq hx
    exact hH (mem_of_mem_splitAtFirst_snd hq hx)
  cases hs : stripPreCI SCHEME_HTTPS_PRE qs.1 with
  | some rest =>
    rw [hs] at h
    have hrsub := mem_stripPreCI hs
    rcases parseHostPort_inv (fun hx => hq1 (hrsub _ hx)) (fun hx => hq1H (hrsub _ hx))
      hq2H h with ⟨hi, _, _, hf⟩
    exact ⟨hi, hf⟩
  | none =>
    rw [hs] at h
    cases hs2 : stripPreCI SCHEME_HTTP_PRE qs.1 with
    | some rest =>
      rw [hs2] at h
      have hrsub := mem_stripPreCI hs2
      rcases parseHostPort_inv (fun hx => hq1 (hrsub _ hx)) (fun hx => hq1H (hrsub _ hx))
        hq2H h with ⟨hi, _, _, hf⟩
      exact ⟨hi, hf⟩
    | none =>
      rw [hs2] at h
      cases h

theorem stripPreCI_https_self (r : List Char) :
    stripPreCI SCHEME_HTTPS_PRE (SCHEME_HTTPS_PRE ++ r) = some r := rfl

theorem stripPreCI_http_self (r : List Char) :
    stripPreCI SCHEME_HTTP_PRE (SCHEME_HTTP_PRE ++ r) = some r := rfl

theorem stripPreCI_https_on_http (r : List Char) :
    stripPreCI SCHEME_HTTPS_PRE (SCHEME_HTTP_PRE ++ r) = none := rfl

theorem mem_portChars {x : Char} {p : Option Nat} (h : x ∈ portChars p) :
    x = ':' ∨ isDigitC x = true := by
  cases p with
  | none => cases h
  | some n =>
    rcases List.mem_cons.mp h with h | h
    · exact Or.inl h
    · exact Or.inr (mem_digitsOfNat_isDigit h)

theorem hashB_not_mem {u : UrlObj} (h : UrlInv u) :
    '#' ∉ (if u.https then SCHEME_HTTPS_PRE else SCHEME_HTTP_PRE) ++ u.host ++
      portChars u.port ++ u.path ++ queryChars u.query := by
  intro hx
  simp only [List.mem_append] at hx
  rcases hx with ((((hx | hx) | hx) | hx) | hx)
  · revert hx
    cases u.https <;> decide
  · exact h.hostHash hx
  · rcases mem_portChars hx with hx | hx
    · cases hx
    · cases hx
  · exact h.pathHash hx
  · cases hq : u.query with
    | none => rw [hq] at hx; cases hx
    | some q =>
      rw [hq] at hx
      rcases List.mem_cons.mp hx with hx | hx
      · cases hx
      · exact h.queryHash q hq hx

theorem qC_not_mem {u : UrlObj} (h : UrlInv u) :
    '?' ∉ (if u.https then SCHEME_HTTPS_PRE else SCHEME_HTTP_PRE) ++ u.host ++
      portChars u.port ++ u.path := by
  intro hx
  simp only [List.mem_append] at hx
  rcases hx with (((hx | hx) | hx) | hx)
  · revert hx
    cases u.https <;> decide
  · exact h.hostQ hx
  · rcases mem_portChars hx with hx | hx
    · cases hx
    · cases hx
  · exact h.pathQ hx

theorem slash_not_mem_hostPort {u : UrlObj} (h : UrlInv u) :
    '/' ∉ u.host ++ portChars u.port := by
  intro hx
  rcases List.mem_append.mp hx with hx | hx
  · exact h.hostSlash hx
  · rcases mem_portChars hx with hx | hx
    · cases hx
    · cases hx

/-- Serialization parses back to the same object: the round trip underlying
idempotence of `cleanUrl` and the link-collector invariants. -/
theorem parse_serializeUrlL {u : UrlObj} (h : UrlInv u) :
    parseUrlL (serializeUrlL u) = some u := by
  rcases h.pathHead with ⟨t, hpt⟩
  have hsplit1 : splitAtFirst '#' (serializeUrlL u) =
      ((if u.https then SCHEME_HTTPS_PRE else SCHEME_HTTP_PRE) ++ u.host ++
        portChars u.port ++ u.path ++ queryChars u.query, u.frag) := by
    unfold serializeUrlL
    cases hf : u.frag with
    | none =>
      dsimp only [fragChars]
      rw [List.append_nil]
      exact splitAtFirst_of_not_mem (hashB_not_mem h)
    | some f =>
      dsimp only [fragChars]
      exact splitAtFirst_append (hashB_not_mem h)
  have hsplit2 : splitAtFirst '?'
      ((if u.https then SCHEME_HTTPS_PRE else SCHEME_HTTP_PRE) ++ u.host ++
        portChars u.port ++ u.path ++ queryChars u.query) =
      ((if u.https then SCHEME_HTTPS_PRE else SCHEME_HTTP_PRE) ++ u.host ++
        portChars u.port ++ u.path, u.query) := by
    cases hq : u.query with
    | none =>
      dsimp only [queryChars]
      rw [List.append_nil]
      exact splitAtFirst_of_not_mem (qC_not_mem h)
    | some q =>
      dsimp only [queryChars]
      exact splitAtFirst_append (qC_not_mem h)
  have hsplit3 : splitAtFirst '/' (u.host ++ portChars u.port ++ u.path) =
      (u.host ++ portChars u.port, some t) := by
    rw [hpt]
    exact splitAtFirst_append (slash_not_mem_hostPort h)
  have hHP : parseHostPort u.https (u.host ++ portChars u.port ++ u.path) u.query =
      some { u with frag := none } := by
    unfold parseHostPort
    rw [hsplit3]
    cases hpo : u.port with
    | none =>
      dsimp only [portChars]
      rw [List.append_nil, splitAtFirst_of_not_mem h.hostColon]
      rw [if_neg h.hostNe]
      dsimp only
      rw [h.hostLower]
      rw [Option.getD_some]
      rw [← hpt, ← hpo]
    | some n =>
      dsimp only [portChars]
      rw [splitAtFirst_append h.hostColon]
      rw [if_neg h.hostNe]
      dsimp only
      rw [if_neg (digitsOfNat_ne_nil n)]
      rw [if_pos (List.all_eq_true.mpr (fun c hc => mem_digitsOfNat_isDigit hc))]
      rw [natOfDigits_digitsOfNat n]
      rcases h.portRange n hpo with ⟨hn1, hn2⟩
      rw [if_neg (by omega)]
      rw [if_neg (by rw [hn2]; exact Bool.false_ne_true)]
      rw [h.hostLower]
      rw [Option.getD_some]
      rw [← hpt, ← hpo]
  have hNF : parseNoFrag
      ((if u.https then SCHEME_HTTPS_PRE else SCHEME_HTTP_PRE) ++ u.host ++
        portChars u.port ++ u.path ++ queryChars u.query) =
      some { u with frag := none } := by
    unfold parseNoFrag
    rw [hsplit2]
    dsimp only
    cases hh : u.https with
    | true =>
      rw [if_pos rfl]
      rw [List.append_assoc, List.append_assoc, ← List.append_assoc u.host]
      rw [stripPreCI_https_self]
      rw [hh] at hHP
      exact hHP
    | false =>
      rw [if_neg Bool.false_ne_true]
      rw [List.append_assoc, List.append_assoc, ← List.append_assoc u.host]
      rw [stripPreCI_https_on_http, stripPreCI_http_self]
      rw [hh] at hHP
      exact hHP
  unfold parseUrlL
  rw [hsplit1]
  dsimp only
  rw [hNF]
  rfl

theorem parseUrlL_inv {s : List Char} {u : UrlObj} (h : parseUrlL s = some u) :
    UrlInv u := by
  unfold parseUrlL at h
  set fs := splitAtFirst '#' s with hfs
  cases hp : parseNoFrag fs.1 with
  | none => rw [hp] at h; cases h
  | some v =>
    rw [hp] at h
    cases h
    have hH : '#' ∉ fs.1 := not_mem_splitAtFirst_fst '#' s
    rcases parseNoFrag_inv hH hp with ⟨hi, _⟩
    exact ⟨hi.hostNe, hi.hostLower, hi.hostColon, hi.hostSlash, hi.hostQ, hi.hostHash,
      hi.pathHead, hi.pathQ, hi.pathHash, hi.queryHash, hi.portRange⟩

theorem UrlInv_dropFrag {u : UrlObj} (h : UrlInv u) : UrlInv { u with frag := none } :=
  ⟨h.hostNe, h.hostLower, h.hostColon, h.hostSlash, h.hostQ, h.hostHash,
   h.pathHead, h.pathQ, h.pathHash, fun q hq => h.queryHash q hq, h.portRange⟩

theorem cleanUrlL_eq_serialize {s : List Char} {u : UrlObj} (hp : parseUrlL s = some u) :
    cleanUrlL s = serializeUrlL { u with frag := none } := by
  unfold cleanUrlL
  rw [hp]

theorem cleanUrlL_eq_split {s : List Char} (hp : parseUrlL s = none) :
    cleanUrlL s = (splitAtFirst '#' s).1 := by
  unfold cleanUrlL
  rw [hp]

/-- `cleanUrl` is a closure operator: cleaning a cleaned URL is a no-op. -/
theorem cleanUrlL_fixpoint (s : List Char) : cleanUrlL (cleanUrlL s) = cleanUrlL s := by
  cases hp : parseUrlL s with
  | some u =>
    rw [cleanUrlL_eq_serialize hp]
    have h2 := parse_serializeUrlL (UrlInv_dropFrag (parseUrlL_inv hp))
    rw [cleanUrlL_eq_serialize h2]
  | none =>
    have hn : parseNoFrag (splitAtFirst '#' s).1 = none := by
      cases hx : parseNoFrag (splitAtFirst '#' s).1 with
      | none => rfl
      | some v =>
        unfold parseUrlL at hp
        rw [hx] at hp
        simp at hp
    rw [cleanUrlL_eq_split hp]
    have ht : parseUrlL (splitAtFirst '#' s).1 = none := by
      unfold parseUrlL
      rw [splitAtFirst_of_not_mem (not_mem_splitAtFirst_fst '#' s), hn]
      rfl
    rw [cleanUrlL_eq_split ht, splitAtFirst_of_not_mem (not_mem_splitAtFirst_fst '#' s)]

theorem dropWhile_ends_slash (l : List Char) :
    ∃ m, List.dropWhile (fun c => c != '/') (l ++ ['/']) = m ++ ['/'] := by
  induction l with
  | nil => exact ⟨[], rfl⟩
  | cons c l ih =>
    by_cases hc : c = '/'
    · subst hc
      exact ⟨'/' :: l, by simp [List.dropWhile]⟩
    · rcases ih with ⟨m, hm⟩
      refine ⟨m, ?_⟩
      have hcb : (c != '/') = true := bne_iff_ne.mpr hc
      simp only [List.cons_append, List.dropWhile_cons, hcb, if_true]
      exact hm

theorem dirOfPath_head {t : List Char} :
    ∃ m, dirOfPath ('/' :: t) = '/' :: m := by
  unfold dirOfPath
  rw [List.reverse_cons]
  rcases dropWhile_ends_slash t.reverse with ⟨m, hm⟩
  rw [hm, List.reverse_append]
  exact ⟨m.reverse, rfl⟩

theorem mem_dirOfPath {x : Char} {p : List Char} (h : x ∈ dirOfPath p) : x ∈ p := by
  unfold dirOfPath at h
  rw [List.mem_reverse] at h
  have := (List.dropWhile_sublist (l := p.reverse) (p := fun c => c != '/')).subset h
  exact List.mem_reverse.mp this

theorem resolveUrl_inv {cand : List Char} {base u : UrlObj} (hb : UrlInv base)
    (h : resolveUrl cand base = some u) : UrlInv u := by
  unfold resolveUrl at h
  cases hp : parseUrlL cand with
  | some v =>
    rw [hp] at h
    cases h
    exact parseUrlL_inv hp
  | none =>
    rw [hp] at h
    dsimp only at h
    by_cases h2 : cand.take 2 = ['/', '/']
    · rw [if_pos h2] at h
      exact parseUrlL_inv h
    · rw [if_neg h2] at h
      cases h
      rcases hb.pathHead with ⟨t, hpt⟩
      have hcand1H : '#' ∉ (splitAtFirst '#' cand).1 := not_mem_splitAtFirst_fst '#' cand
      have hpartQ : '?' ∉ (splitAtFirst '?' (splitAtFirst '#' cand).1).1 :=
        not_mem_splitAtFirst_fst '?' (splitAtFirst '#' cand).1
      have hpartH : '#' ∉ (splitAtFirst '?' (splitAtFirst '#' cand).1).1 :=
        fun hx => hcand1H (mem_of_mem_splitAtFirst_fst hx)
      refine ⟨hb.hostNe, hb.hostLower, hb.hostColon, hb.hostSlash, hb.hostQ, hb.hostHash,
        ?_, ?_, ?_, ?_, hb.portRange⟩
      · unfold relPath
        by_cases he : (splitAtFirst '?' (splitAtFirst '#' cand).1).1 = []
        · rw [if_pos he, hpt]
          exact ⟨t, rfl⟩
        rw [if_neg he]
        by_cases hsl : ((splitAtFirst '?' (splitAtFirst '#' cand).1).1).take 1 = ['/']
        · rw [if_pos hsl]
          cases hc : (splitAtFirst '?' (splitAtFirst '#' cand).1).1 with
          | nil => exact absurd hc he
          | cons c r =>
            rw [hc] at hsl
            simp [List.take] at hsl
            refine ⟨r, ?_⟩
            dsimp only
            rw [hsl]
        · rw [if_neg hsl, hpt]
          rcases dirOfPath_head (t := t) with ⟨m, hm⟩
          rw [hm]
          exact ⟨m ++ (splitAtFirst '?' (splitAtFirst '#' cand).1).1, rfl⟩
      · unfold relPath
        by_cases he : (splitAtFirst '?' (splitAtFirst '#' cand).1).1 = []
        · rw [if_pos he]
          exact hb.pathQ
        rw [if_neg he]
        by_cases hsl : ((splitAtFirst '?' (splitAtFirst '#' cand).1).1).take 1 = ['/']
        · rw [if_pos hsl]
          exact hpartQ
        · rw [if_neg hsl]
          intro hx
          rcases List.mem_append.mp hx with hx | hx
          · exact hb.pathQ (mem_dirOfPath hx)
          · exact hpartQ hx
      · unfold relPath
        by_cases he : (splitAtFirst '?' (splitAtFirst '#' cand).1).1 = []
        · rw [if_pos he]
          exact hb.pathHash
        rw [if_neg he]
        by_cases hsl : ((splitAtFirst '?' (splitAtFirst '#' cand).1).1).take 1 = ['/']
        · rw [if_pos hsl]
          exact hpartH
        · rw [if_neg hsl]
          intro hx
          rcases List.mem_append.mp hx with hx | hx
          · exact hb.pathHash (mem_dirOfPath hx)
          · exact hpartH hx
      · intro q hq
        unfold relQuery at hq
        cases hqq : (splitAtFirst '?' (splitAtFirst '#' cand).1).2 with
        | some q2 =>
          rw [hqq] at hq
          cases hq
          intro hx
          exact hcand1H (mem_of_mem_splitAtFirst_snd hqq hx)
        | none =>
          rw [hqq] at hq
          dsimp only at hq
          by_cases hce : (splitAtFirst '#' cand).1 = []
          · rw [if_pos hce] at hq
            exact hb.queryHash q hq
          · rw [if_neg hce] at hq
            cases hq

theorem hash_not_mem_serialize_noFrag {u : UrlObj} (h : UrlInv u) :
    '#' ∉ serializeUrlL { u with frag := none } := by
  unfold serializeUrlL
  intro hx
  rw [show fragChars ({ u with frag := none } : UrlObj).frag = [] from rfl,
    List.append_nil] at hx
  exact hashB_not_mem h hx

theorem nodup_append_singleton {α : Type} {l : List α} {x : α}
    (h : l.Nodup) (hx : x ∉ l) : (l ++ [x]).Nodup := by
  rw [List.nodup_append]
  exact ⟨h, List.nodup_singleton x, fun a ha hb => by
    rcases List.mem_singleton.mp hb with rfl
    exact hx ha⟩

theorem addCandidateLink_inv {base : UrlObj} {links : List (List Char)}
    {cand : List Char} (hb : UrlInv base) (h : CollectorInv base links) :
    CollectorInv base (addCandidateLink base links cand) := by
  unfold addCandidateLink
  by_cases h1 : cand = [] ∨ MAX_LINKS_PER_PAGE ≤ links.length
  · rw [if_pos h1]
    exact h
  rw [if_neg h1]
  cases hr : resolveUrl cand base with
  | none => exact h
  | some link =>
    dsimp only
    by_cases ho : originEq link base
    · rw [if_pos ho]
      by_cases hd : cleanUrlL (serializeUrlL link) = cleanUrlL (serializeUrlL base) ∨
          cleanUrlL (serializeUrlL link) ∈ links
      · rw [if_pos hd]
        exact h
      · rw [if_neg hd]
        push_neg at hd
        push_neg at h1
        have hlen : links.length < MAX_LINKS_PER_PAGE := h1.2
        have hlinkInv : UrlInv link := resolveUrl_inv hb hr
        have hser : cleanUrlL (serializeUrlL link) =
            serializeUrlL { link with frag := none } :=
          cleanUrlL_eq_serialize (parse_serializeUrlL hlinkInv)
        have hparse : parseUrlL (cleanUrlL (serializeUrlL link)) =
            some { link with frag := none } := by
          rw [hser]
          exact parse_serializeUrlL (UrlInv_dropFrag hlinkInv)
        refine ⟨?_, ?_, ?_⟩
        · rw [List.length_append]
          simpa using hlen
        · exact nodup_append_singleton h.2.1 hd.2
        · intro e he
          rcases List.mem_append.mp he with he | he
          · exact h.2.2 e he
          · rcases List.mem_singleton.mp he with rfl
            refine ⟨cleanUrlL_fixpoint _, ?_, ⟨{ link with frag := none }, hparse, ?_⟩,
              hd.1⟩
            · rw [hser]
              exact hash_not_mem_serialize_noFrag hlinkInv
            · simpa [originEq] using ho
    · rw [if_neg ho]
      exact h

theorem foldl_addCandidate_inv {base : UrlObj} (hb : UrlInv base) :
    ∀ (cs : List (List Char)) {links : List (List Char)}, CollectorInv base links →
      CollectorInv base (cs.foldl (addCandidateLink base) links) := by
  intro cs
  induction cs with
  | nil => exact fun h => h
  | cons c cs ih =>
    intro links h
    exact ih (addCandidateLink_inv hb h)

theorem runCollector_inv {base : UrlObj} (hb : UrlInv base) (ops : List LinkOp) :
    CollectorInv base (runCollector base ops) := by
  unfold runCollector
  have hstart : CollectorInv base [] := ⟨by simp [MAX_LINKS_PER_PAGE], List.nodup_nil, by simp⟩
  generalize hacc : ([] : List (List Char)) = acc at hstart
  clear hacc
  induction ops generalizing acc with
  | nil => exact hstart
  | cons op ops ih =>
    rw [List.foldl_cons]
    apply ih
    cases op with
    | addCandidate c => exact addCandidateLink_inv hb hstart
    | addCommon => exact foldl_addCandidate_inv hb _ hstart

/-! ### Lemmas for the fetch retry loop -/

theorem isOk_of_transient {a : FetchAttempt} (h : isTransient a = true) :
    isOkAttempt a = false := by
  cases a <;> simp_all [isTransient, isOkAttempt]

theorem not404_of_transient {a : FetchAttempt} (h : isTransient a = true) :
    is404 a = false := by
  cases a with
  | httpStatus c =>
    simp only [isTransient, Bool.or_eq_true, beq_iff_eq] at h
    simp only [is404, beq_eq_false_iff_ne, ne_eq]
    omega
  | _ => simp_all [isTransient, is404]

/-! ### Claim theorems -/

/-- Claim C1: with `maxRetries = 2` and `backoffBase = 500ms` (the source
defaults), a fetch whose every attempt fails transiently (HTTP 429/403 or a
timeout) makes exactly 3 attempts with inter-attempt delays 500ms and
1000ms, then is classified Blocked (`httpFailed` with
`needsBrowserRendering`); a first attempt that fails non-transiently (404 or
any other non-transient failure) is terminal immediately: one attempt, no
delay, no Blocked classification. -/
theorem claim1_retry_policy :
    (∀ f : Nat → FetchAttempt, (∀ i, isTransient (f i) = true) →
      scrapeUrlFetch f = ⟨3, [500, 1000], (""), true, true⟩) ∧
    (∀ f : Nat → FetchAttempt, isOkAttempt (f 0) = false → isTransient (f 0) = false →
      scrapeUrlFetch f = ⟨1, [], (""), true, false⟩) := by
  constructor
  · intro f h
    have hok : ∀ i, isOkAttempt (f i) = false := fun i => isOk_of_transient (h i)
    have h404 : ∀ i, is404 (f i) = false := fun i => not404_of_transient (h i)
    unfold scrapeUrlFetch
    have h3 : fetchLoopAux f 2 1 = ⟨1, [], (""), true, true⟩ := by
      unfold fetchLoopAux
      rw [hok 2, if_neg (by simp)]
      rw [h 2, h404 2]
      norm_num [HTTP_MAX_RETRIES]
    have h2 : fetchLoopAux f 1 2 = ⟨2, [1000], (""), true, true⟩ := by
      unfold fetchLoopAux
      rw [hok 1, if_neg (by simp)]
      rw [h 1, h404 1]
      norm_num [HTTP_MAX_RETRIES, h3, RETRY_BACKOFF_BASE_MS]
    have h1 : fetchLoopAux f 0 3 = ⟨3, [500, 1000], (""), true, true⟩ := by
      unfold fetchLoopAux
      rw [hok 0, if_neg (by simp)]
      rw [h 0, h404 0]
      norm_num [HTTP_MAX_RETRIES, h2, RETRY_BACKOFF_BASE_MS]
    rw [show HTTP_MAX_RETRIES + 1 = 3 from rfl, h1]
    norm_num
  · intro f hok htr
    unfold scrapeUrlFetch
    rw [show HTTP_MAX_RETRIES + 1 = 3 from rfl]
    unfold fetchLoopAux
    rw [hok, if_neg (by simp), htr]
    norm_num

/-- Claim C1 witness: the two halves applied to the constant-429 and the
constant-404 fetch stubs. -/
theorem claim1_retry_policy_witness :
    scrapeUrlFetch (fun _ => FetchAttempt.httpStatus 429) =
      ⟨3, [500, 1000], (""), true, true⟩ ∧
    scrapeUrlFetch (fun _ => FetchAttempt.httpStatus 404) =
      ⟨1, [], (""), true, false⟩ :=
  ⟨claim1_retry_policy.1 _ (fun _ => rfl), claim1_retry_policy.2 _ rfl rfl⟩

/-- Claim C2 counterexample: the HTTP `scrapeWebsite` reports
`success = true` even when the primary fetch failed terminally with no
usable content (here: `httpFailed`, no emails, no links), contradicting
the claimed `success == false`. -/
theorem claim2_success_flag_cex :
    (scrapeWebsiteHttp ("http://x.com/") ⟨[], [], [], true, false⟩ []).success = true ∧
    (⟨[], [], [], true, false⟩ : ScrapeUrlResult).httpFailed = true := ⟨rfl, rfl⟩

/-- Claim C2 (amended): the HTTP-mode crawl always reports
`success = true`, whatever happened to the primary or subpage fetches; in
the browser-rendering crawl, `success` ignores subpage results and is
`false` exactly when the primary fetch errored with no emails and no links
(terminal failure with no usable content). -/
theorem claim2_success_flag_amended :
    (∀ (url : String) (primary : ScrapeUrlResult)
      (subs : List (String × ScrapeUrlResult)),
      (scrapeWebsiteHttp url primary subs).success = true) ∧
    (∀ (url : String) (primary : BScrapeUrlResult)
      (subs subs2 : List (String × BScrapeUrlResult)),
      (scrapeWebsiteBrowser url primary subs).success =
        (scrapeWebsiteBrowser url primary subs2).success ∧
      ((scrapeWebsiteBrowser url primary subs).success = false ↔
        (jsTruthyStr primary.error = true ∧ primary.emails = [] ∧
          primary.newUrls = []))) := by
  refine ⟨fun url primary subs => rfl, fun url primary subs subs2 => ⟨rfl, ?_⟩⟩
  show (!(jsTruthyStr primary.error && primary.emails.isEmpty &&
    primary.newUrls.isEmpty)) = false ↔ _
  simp [Bool.and_eq_true, List.isEmpty_iff, and_assoc]

/-- Claim C3 counterexample: with the default depth 2, a primary page that
yields one unique email (below the claimed threshold of 3) and a valid
same-origin candidate link dispatches no subpage fetch, contradicting the
claimed fan-out; with zero emails the same link is dispatched. -/
theorem claim3_early_exit_cex :
    dispatchedSubpages ("http://biz.com/")
      ⟨[("info@biz.com")], [], [("http://biz.com/contact/")], false, false⟩ = some [] ∧
    (dedupStr [("info@biz.com")]).length = 1 ∧
    dispatchedSubpages ("http://biz.com/")
      ⟨[], [], [("http://biz.com/contact/")], false, false⟩ =
      some [("http://biz.com/contact/")] := by
  refine ⟨?_, rfl, ?_⟩ <;> rfl

/-- Claim C3 (amended): the effective early-exit threshold of the HTTP
crawl is one email, not three — any email on the primary page suppresses
fan-out, and fan-out happens exactly when the primary page yielded zero
emails (the dispatched set being the same-origin unvisited candidates,
possibly empty). -/
theorem claim3_early_exit_amended (url : String) (base : UrlObj)
    (primary : ScrapeUrlResult) (hb : parseUrlL url.data = some base) :
    (primary.emails ≠ [] → dispatchedSubpages url primary = some []) ∧
    (primary.emails = [] → dispatchedSubpages url primary =
      some (candidateSubpages url base primary.newUrls)) := by
  constructor
  · intro hne
    unfold dispatchedSubpages
    rw [hb]
    dsimp only
    rw [if_neg]
    intro hcon
    rcases hcon with ⟨_, hlen⟩
    rw [List.length_eq_zero] at hlen
    exact hne ((List.dedup_eq_nil _).mp hlen)
  · intro hes
    unfold dispatchedSubpages
    rw [hb]
    dsimp only
    rw [if_pos]
    constructor
    · norm_num [MAX_DEPTH]
    · rw [hes]
      rfl

/-- Claim C3 witness: the amended claim applied to a concrete crawl with
one email (no dispatch) over the base `http://biz.com/`. -/
theorem claim3_early_exit_amended_witness :
    dispatchedSubpages ("http://biz.com/")
      ⟨[("a@b.io")], [], [("http://biz.com/about/")], false, false⟩ = some [] :=
  (claim3_early_exit_amended ("http://biz.com/")
    ⟨false, ("biz.com").data, none, ['/'], none, none⟩
    ⟨[("a@b.io")], [], [("http://biz.com/about/")], false, false⟩ rfl).1
    (by simp)

/-- Claim C9: for every URL string, `cleanUrl` is idempotent. -/
theorem claim9_cleanUrl_idempotent (u : String) :
    cleanUrl (cleanUrl u) = cleanUrl u := by
  unfold cleanUrl
  congr 1
  exact cleanUrlL_fixpoint u.data

/-- Claim C10: a payload whose `success` is not `true` and whose `error`
field is falsy normalizes to `auto_error` with message
"Invalid response format", empty email and Facebook lists and
`needs_browser_rendering = false` (the normalizer is total, so it never
throws). -/
theorem claim10_invalid_payload (p : RawPayload) (h1 : p.success ≠ some true)
    (h2 : p.error = none) :
    normalizeResponse [p] =
      [⟨NStatus.autoError, [], [], some ("Invalid response format"), false⟩] := by
  unfold normalizeResponse normalizeResponseOne
  rw [List.map_cons, List.map_nil, if_neg h1, h2]

/-- Claim C10 witness at a concrete malformed payload. -/
theorem claim10_invalid_payload_witness :
    normalizeResponse [⟨some false, none, some [("x")], none, some true⟩] =
      [⟨NStatus.autoError, [], [], some ("Invalid response format"), false⟩] :=
  claim10_invalid_payload ⟨some false, none, some [("x")], none, some true⟩
    (by decide) rfl

/-! ### Lemmas for the junk-email filter -/

theorem mem_dropWhile_of_neg {p : Char → Bool} {c : Char} {l : List Char}
    (h : c ∈ l) (hp : p c = false) : c ∈ l.dropWhile p := by
  induction l with
  | nil => cases h
  | cons x xs ih =>
    rw [List.dropWhile_cons]
    by_cases hx : p x = true
    · rw [if_pos hx]
      rcases List.mem_cons.mp h with rfl | h2
      · rw [hx] at hp; cases hp
      · exact ih h2
    · rw [if_neg hx]
      exact h

theorem mem_trimL {c : Char} {l : List Char} (h : c ∈ l) (hs : isSpaceJS c = false) :
    c ∈ trimL l := by
  unfold trimL
  rw [List.mem_reverse]
  apply mem_dropWhile_of_neg _ hs
  rw [List.mem_reverse]
  exact mem_dropWhile_of_neg h hs

theorem not_mem_of_contains_false {α : Type} [BEq α] [LawfulBEq α] {l : List α} {x : α}
    (h : l.contains x = false) : x ∉ l := by
  intro hm
  have h2 := List.elem_eq_true_of_mem hm
  rw [show l.contains x = l.elem x from rfl, h2] at h
  cases h

theorem junk_of_contains_q {e : String} (h : '?' ∈ e.data) : isJunkEmail e = true := by
  have hne : e.data ≠ [] := by
    intro hnil
    rw [hnil] at h
    cases h
  unfold isJunkEmail
  rw [if_neg hne]
  have hmem : '?' ∈ lowerL (trimL e.data) :=
    List.mem_map.mpr ⟨'?', mem_trimL h (by decide), by decide⟩
  have hcn : (lowerL (trimL e.data)).contains '?' = true :=
    List.elem_eq_true_of_mem hmem
  have hbp : blockedPatternsTest (lowerL (trimL e.data)) = true := by
    unfold blockedPatternsTest
    simp only [hcn, Bool.or_true, Bool.true_or]
  unfold junkCheckNormalized
  rw [if_pos hbp]

theorem dropWhile_append_not {p : Char → Bool} {x : Char} {l r : List Char}
    (hx : p x = false) :
    List.dropWhile p (l ++ x :: r) = List.dropWhile p l ++ x :: r := by
  induction l with
  | nil =>
    rw [List.nil_append, List.dropWhile_cons, if_neg (by simp [hx]),
      List.dropWhile_nil, List.nil_append]
  | cons c cs ih =>
    rw [List.cons_append, List.dropWhile_cons, List.dropWhile_cons]
    by_cases hc : p c = true
    · rw [if_pos hc, if_pos hc, ih]
    · rw [if_neg hc, if_neg hc, List.cons_append]

theorem trimL_decomp {a m b : List Char} :
    ∃ x y, trimL (a ++ '@' :: (m ++ '@' :: b)) = x ++ '@' :: (m ++ '@' :: y) := by
  have hat : isSpaceJS '@' = false := by decide
  refine ⟨List.dropWhile isSpaceJS a,
    (List.dropWhile isSpaceJS b.reverse).reverse, ?_⟩
  unfold trimL
  rw [dropWhile_append_not hat]
  rw [show (List.dropWhile isSpaceJS a ++ '@' :: (m ++ '@' :: b)).reverse =
    b.reverse ++ '@' :: (m.reverse ++ '@' :: (List.dropWhile isSpaceJS a).reverse) by
      simp [List.append_assoc]]
  rw [dropWhile_append_not hat]
  simp [List.append_assoc]

theorem lowerL_decomp {x m y : List Char} :
    lowerL (x ++ '@' :: (m ++ '@' :: y)) =
      lowerL x ++ '@' :: (lowerL m ++ '@' :: lowerL y) := by
  unfold lowerL
  rw [List.map_append, List.map_cons, List.map_append, List.map_cons]
  rw [show lowerChar '@' = '@' from by decide]

theorem isNlJS_lowerChar (c : Char) : isNlJS (lowerChar c) = isNlJS c := by
  unfold isNlJS
  rw [lowerChar_toNat, Bool.eq_iff_iff]
  simp only [Bool.or_eq_true, beq_iff_eq]
  split_ifs with h <;> omega

theorem atDotAt_after {m b : List Char} (hm : ∀ c ∈ m, isNlJS c = false) :
    atDotAt (m ++ '@' :: b) true = true := by
  induction m with
  | nil => simp [atDotAt]
  | cons c m ih =>
    have hc := hm c (List.mem_cons_self c m)
    have hm2 : ∀ x ∈ m, isNlJS x = false := fun x hx => hm x (List.mem_cons_of_mem c hx)
    by_cases hat : c = '@'
    · simp [atDotAt, hat]
    · rw [List.cons_append]
      unfold atDotAt
      rw [if_neg hat, if_neg (by simp [hc])]
      exact ih hm2

theorem atDotAt_intro {a m b : List Char} (hm : ∀ c ∈ m, isNlJS c = false) (s : Bool) :
    atDotAt (a ++ '@' :: (m ++ '@' :: b)) s = true := by
  induction a generalizing s with
  | nil =>
    rw [List.nil_append]
    unfold atDotAt
    rw [if_pos rfl, atDotAt_after hm, Bool.or_true]
  | cons c a ih =>
    rw [List.cons_append]
    unfold atDotAt
    by_cases hat : c = '@'
    · rw [if_pos hat, ih true, Bool.or_true]
    · rw [if_neg hat]
      by_cases hnl : isNlJS c = true
      · rw [if_pos hnl]
        exact ih false
      · rw [if_neg hnl]
        exact ih s

theorem junk_of_two_at {e : String} {a m b : List Char}
    (hd : e.data = a ++ '@' :: (m ++ '@' :: b)) (hm : ∀ c ∈ m, isNlJS c = false) :
    isJunkEmail e = true := by
  have hne : e.data ≠ [] := by
    rw [hd]
    intro hc
    cases a <;> simp at hc
  unfold isJunkEmail
  rw [if_neg hne]
  rcases trimL_decomp (a := a) (m := m) (b := b) with ⟨x, y, hxy⟩
  have hm2 : ∀ c ∈ lowerL m, isNlJS c = false := by
    intro c hc
    rcases List.mem_map.mp hc with ⟨c0, hc0, rfl⟩
    rw [isNlJS_lowerChar]
    exact hm c0 hc0
  have hat : atDotAt (lowerL (trimL e.data)) false = true := by
    rw [hd, hxy, lowerL_decomp]
    exact atDotAt_intro hm2 false
  have hbp : blockedPatternsTest (lowerL (trimL e.data)) = true := by
    unfold blockedPatternsTest
    simp only [hat, Bool.or_true, Bool.true_or]
  unfold junkCheckNormalized
  rw [if_pos hbp]

theorem junk_of_blocked_local {e : String} {lp dom : List Char}
    (hs : splitAtLast '@' (normalizeEmail e) = some (lp, dom))
    (hlp : lp ∈ BLOCKED_LOCAL_PARTS) : isJunkEmail e = true := by
  unfold isJunkEmail
  by_cases hne : e.data = []
  · rw [if_pos hne]
  · rw [if_neg hne]
    unfold junkCheckNormalized
    by_cases hbp : blockedPatternsTest (lowerL (trimL e.data)) = true
    · rw [if_pos hbp]
    · rw [if_neg hbp]
      unfold normalizeEmail at hs
      rw [hs]
      dsimp only
      by_cases hemp : lp = [] ∨ dom = []
      · rw [if_pos hemp]
      · rw [if_neg hemp, if_pos (List.elem_eq_true_of_mem hlp)]

/-- Claim C6 counterexample: an email containing two `@` characters with a
line break between them is not classified junk — the pattern `/@.*@/` does
not span lines, so "contains two @" alone does not imply junk. -/
theorem claim6_junk_filter_cex :
    ((("a@b\nc@realcompany.io") : String).data.filter (fun c => c == '@')).length = 2 ∧
    isJunkEmail ("a@b\nc@realcompany.io") = false := by
  constructor
  · rfl
  · decide

/-- Claim C6 (amended: the two `@` must lie on one line, as `/@.*@/` does
not cross line terminators): the filter rejects every email containing `?`,
every email with two `@` not separated by a line terminator, and every email
whose local part (before the last `@` of the lower-cased trimmed form) is in
the blocked set; the table cases behave as claimed. -/
theorem claim6_junk_filter_amended :
    (∀ e : String, '?' ∈ e.data → isJunkEmail e = true) ∧
    (∀ (e : String) (a m b : List Char), e.data = a ++ '@' :: (m ++ '@' :: b) →
      (∀ c ∈ m, isNlJS c = false) → isJunkEmail e = true) ∧
    (∀ (e : String) (lp dom : List Char),
      splitAtLast '@' (normalizeEmail e) = some (lp, dom) →
      lp ∈ BLOCKED_LOCAL_PARTS → isJunkEmail e = true) ∧
    isJunkEmail ("sprite@cdn.example.com") = true ∧
    isJunkEmail ("noreply@acme.com") = true ∧
    isJunkEmail ("jane@realcompany.io") = false := by
  refine ⟨fun e h => junk_of_contains_q h,
    fun e a m b hd hm => junk_of_two_at hd hm,
    fun e lp dom hs hlp => junk_of_blocked_local hs hlp, ?_, ?_, ?_⟩ <;> decide

/-- Claim C6 witness: the three universal clauses applied to concrete
emails. -/
theorem claim6_junk_filter_amended_witness :
    isJunkEmail ("foo?bar@x.com") = true ∧ isJunkEmail ("a@b@c.com") = true ∧
    isJunkEmail ("noreply@acme.com") = true :=
  ⟨claim6_junk_filter_amended.1 ("foo?bar@x.com") (by decide),
   claim6_junk_filter_amended.2.1 ("a@b@c.com") ['a'] ['b'] (("c.com").data) rfl
     (by decide),
   claim6_junk_filter_amended.2.2.1 ("noreply@acme.com") (("noreply").data)
     (("acme.com").data) rfl (by decide)⟩

/-- Claim C7: for every parseable base URL and any sequence of
`addCandidateLink` / `addCommonPages` calls, `getLinks()` returns at most
`MAX_LINKS_PER_PAGE` entries without repetition, and every entry is a
`cleanUrl` fixpoint containing no `#` (fragment-stripped) that parses to a
URL with the base's origin and differs from the (cleaned) base page
itself. -/
theorem claim7_link_collector (baseHref : List Char) (base : UrlObj)
    (ops : List LinkOp) (hb : parseUrlL baseHref = some base) :
    (runCollector base ops).length ≤ MAX_LINKS_PER_PAGE ∧
    (runCollector base ops).Nodup ∧
    ∀ e ∈ runCollector base ops, cleanUrlL e = e ∧ '#' ∉ e ∧
      (∃ v, parseUrlL e = some v ∧ originEq v base = true) ∧
      e ≠ cleanUrlL (serializeUrlL base) :=
  runCollector_inv (parseUrlL_inv hb) ops

/-- Claim C7 witness: the cap after seeding the common pages over a
concrete base. -/
theorem claim7_link_collector_witness :
    (runCollector ⟨false, ("site.com").data, none, ['/'], none, none⟩
      [LinkOp.addCommon]).length ≤ MAX_LINKS_PER_PAGE :=
  (claim7_link_collector (("http://site.com/").data)
    ⟨false, ("site.com").data, none, ['/'], none, none⟩ [LinkOp.addCommon] rfl).1

/-- Claim C5 counterexample: the two inputs normalize to different strings —
the `www.` host prefix is not stripped, so they do not collapse to one
canonical output. -/
theorem claim5_facebook_collapse_cex :
    normalizeFacebookCandidate ("https://www.facebook.com/page?fbclid=123&ref=abc") 0 =
      some ("https://www.facebook.com/page") ∧
    normalizeFacebookCandidate ("https://facebook.com/page") 0 =
      some ("https://facebook.com/page") ∧
    (("https://www.facebook.com/page") : String) ≠ ("https://facebook.com/page") := by
  refine ⟨rfl, rfl, ?_⟩
  decide

/-- Claim C5 (amended): normalization strips the tracking parameters from
the first input and leaves the second unchanged, producing the same
canonical URL except that the `www.` host prefix of the first is
preserved. -/
theorem claim5_facebook_collapse_amended :
    normalizeFacebookCandidate ("https://www.facebook.com/page?fbclid=123&ref=abc") 0 =
      some (("https://www.") ++ ("facebook.com/page")) ∧
    normalizeFacebookCandidate ("https://facebook.com/page") 0 =
      some (("https://") ++ ("facebook.com/page")) := ⟨rfl, rfl⟩

/-! ### Lemmas for Facebook normalization -/

theorem normFbFinish_spec {u : UrlObj} {out : List Char} (hh : fbHost u.host = true)
    (h : normFbFinish u = some out) : FbOutProp out := by
  unfold normFbFinish at h
  split at h
  · cases h
  · cases h
    refine ⟨{ u with frag := none, query := fbStrippedQuery u.query },
      fbKeptPairs u.query, rfl, hh, rfl, ?_, ?_, ?_⟩
    · cases hu : u.https
      · refine ⟨u.host ++ portChars u.port ++ u.path ++
          queryChars (fbStrippedQuery u.query), Or.inr ?_⟩
        simp [serializeUrlL, hu, List.append_assoc, fragChars]
      · refine ⟨u.host ++ portChars u.port ++ u.path ++
          queryChars (fbStrippedQuery u.query), Or.inl ?_⟩
        simp [serializeUrlL, hu, List.append_assoc, fragChars]
    · intro kv hkv
      have hf := (List.mem_filter.mp hkv).2
      rw [Bool.not_eq_true'] at hf
      exact not_mem_of_contains_false hf
    · unfold fbStrippedQuery
      by_cases hk : fbKeptPairs u.query = []
      · rw [if_pos hk]
        exact Or.inl rfl
      · rw [if_neg hk]
        exact Or.inr rfl

theorem normFbAux_spec (fuel : Nat) : ∀ (raw out : List Char),
    normFbAux fuel raw = some out → FbOutProp out := by
  induction fuel with
  | zero =>
    intro raw out h
    cases h
  | succ fuel ih =>
    intro raw out h
    unfold normFbAux at h
    by_cases h1 : raw = []
    · rw [if_pos h1] at h
      cases h
    rw [if_neg h1] at h
    by_cases h2 : trimL raw = []
    · rw [if_pos h2] at h
      cases h
    rw [if_neg h2] at h
    cases hp : parseUrlL
        (rstripSlashes (fbCoerceScheme (fbMaybeDecode (fbUnescape (trimL raw))))) with
    | none =>
      rw [hp] at h
      cases h
    | some u =>
      rw [hp] at h
      dsimp only at h
      by_cases hh : fbHost u.host = true
      · rw [if_pos hh] at h
        by_cases hl : ((("facebook.com").data).isSuffixOf u.host = true) ∧
            u.path = ("/l.php").data
        · rw [if_pos hl] at h
          cases hf : fbForwarded u.query with
          | some fwd =>
            rw [hf] at h
            exact ih fwd out h
          | none =>
            rw [hf] at h
            exact normFbFinish_spec hh h
        · rw [if_neg hl] at h
          exact normFbFinish_spec hh h
      · rw [if_neg hh] at h
        cases h

/-- Claim C8 (amended: the scheme may be http *or* https, since the source
coerces only scheme-less candidates): every URL returned by the Facebook
extraction over any candidate set is the serialization of an absolute
http(s) URL whose host is facebook.com / fb.com or a subdomain, with no
fragment, and whose query is the serialization of pairs none of whose keys
is a tracking parameter. -/
theorem claim8_extract_facebook (cands : List String) (out : String)
    (h : out ∈ extractFacebookUrls cands) : FbOutProp out.data := by
  unfold extractFacebookUrls at h
  have h2 := List.mem_dedup.mp h
  rcases List.mem_filterMap.mp h2 with ⟨c, hc, hn⟩
  unfold normalizeFacebookCandidate at hn
  cases hx : normFbAux (4 - 0) c.data with
  | none =>
    rw [hx] at hn
    cases hn
  | some l =>
    rw [hx] at hn
    simp only [Option.map_some'] at hn
    cases hn
    exact normFbAux_spec _ _ _ hx

/-- Claim C8 witness: the guarantee at a concrete extracted URL. -/
theorem claim8_extract_facebook_witness :
    FbOutProp (("https://facebook.com/somepage") : String).data :=
  claim8_extract_facebook [("https://facebook.com/somepage")]
    ("https://facebook.com/somepage") (by decide)

/-- Claim C8 counterexample (to the https-only part): an http candidate is
extracted unchanged, so the output does not carry the https scheme. -/
theorem claim8_extract_facebook_cex :
    extractFacebookUrls [("http://facebook.com/page")] =
      [("http://facebook.com/page")] ∧
    ((("https://").data).isPrefixOf (("http://facebook.com/page") : String).data) =
      false := by
  refine ⟨rfl, ?_⟩
  decide

/-- Claim C4 counterexample: a payload with `success` not `true`, no error
field and the needs-heavier-rendering marker set (`js_rendered = false`) is
classified `auto_error` (normalization clears the flag), although the claim
requires the fallback status whenever the flag was set and no email was
found. -/
theorem claim4_classifier_cex :
    classifyPayload ⟨some false, none, some [], some [], some false⟩ =
      FinalStatus.autoError ∧
    isFallbackStatus
      (classifyPayload ⟨some false, none, some [], some [], some false⟩) = false ∧
    (⟨some false, none, some [], some [], some false⟩ : RawPayload).js_rendered =
      some false ∧
    (normalizeResponseOne ⟨some false, none, some [], some [], some false⟩).emails =
      [] :=
  ⟨rfl, rfl, rfl, rfl⟩

/-- Claim C4 (amended: the rendering flag that decides the fallback is the
*normalized* one, which survives only when the fetch succeeded or a truthy
error field accompanied it): every payload is classified into exactly one of
the three classes — completed iff the normalized email list is non-empty;
fallback (one of the two fallback statuses) iff no email and the fetch
succeeded or the normalized rendering flag is set; error iff the fetch did
not succeed and the normalized flag is clear. -/
theorem claim4_classifier_amended (p : RawPayload) :
    (classifyPayload p = FinalStatus.autoCompleted ∨
      isFallbackStatus (classifyPayload p) = true ∨
      classifyPayload p = FinalStatus.autoError) ∧
    (classifyPayload p = FinalStatus.autoCompleted ↔
      (normalizeResponseOne p).emails ≠ []) ∧
    (isFallbackStatus (classifyPayload p) = true ↔
      ((normalizeResponseOne p).emails = [] ∧
        (p.success = some true ∨
          (normalizeResponseOne p).needs_browser_rendering = true))) ∧
    (classifyPayload p = FinalStatus.autoError ↔
      (p.success ≠ some true ∧
        (normalizeResponseOne p).needs_browser_rendering = false)) := by
  rcases p with ⟨s, er, em, fb, js⟩
  unfold classifyPayload normalizeResponseOne
  dsimp only
  by_cases hs : s = some true
  · rw [if_pos hs]
    unfold finalStatusOf
    dsimp only
    split_ifs <;> simp_all [isFallbackStatus, statusToFinal, List.isEmpty_iff]
  · rw [if_neg hs]
    cases er with
    | none =>
      unfold finalStatusOf
      dsimp only
      split_ifs <;> simp_all [isFallbackStatus, statusToFinal, List.isEmpty_iff]
    | some e =>
      unfold finalStatusOf
      dsimp only
      split_ifs <;> simp_all [isFallbackStatus, statusToFinal, List.isEmpty_iff]

end Crawler
